import Mathlib

/-!
Verification development for the repository state engine of a git
command-line accelerator (Rust, built on libgit2 through the git2 crate).

The embedding models the object/reference store that the Rust code drives
through git2: commits and trees live in association lists keyed by numeric
OIDs, references map structured names to OIDs, and HEAD is either a
symbolic reference or a detached OID.  The libgit2 primitives the code
calls (merge_base, revwalk with topological/time sorting, three-way tree
merge, checkout) are given executable definitions; content addressing is
modelled by allocating fresh OIDs strictly larger than every OID in use,
so parents always have smaller OIDs than their children.

The operations (`GitRepo.merge`, `GitRepo.pull`, `GitRepo.fetch`,
`GitRepo.checkoutBranch`, `GitRepo.createAndCheckoutBranch`,
`GitRepo.commit`, `GitRepo.listCommits`, `GitRepo.isBranchMergedToMain`,
`GitRepo.init`) are translated from the Rust sources
(src/git/merge/operations.rs, src/git/remotes/sync.rs,
src/git/branches/operations.rs, src/git/commits/operations.rs,
src/git/repository/core.rs), preserving the order of reads, mutations and
early returns.  Fallible calls return `Except String`, and every operation
also returns the repository state so that mutations performed before a
failure stay observable, exactly as on-disk mutations do in the Rust code.
-/

set_option maxRecDepth 4096
/-- A commit object: parent OIDs, tree OID, message and commit time. -/
structure CommitObj where
  parents : List Nat
  tree : Nat
  message : String
  time : Nat
deriving DecidableEq, Repr

/-- Tree contents: a mapping from path to blob OID. -/
abbrev TreeEntries := List (String × Nat)

/-- A structured reference name: either a local branch
(refs/heads/branch) or a remote-tracking reference
(refs/remotes/remote/branch). -/
inductive RefName where
  | head (branch : String)
  | remote (remoteName : String) (branch : String)
deriving DecidableEq, Repr

/-- The HEAD reference: symbolic (pointing at a reference name) or
detached (pointing at a commit OID). -/
inductive HeadRef where
  | symbolic (target : RefName)
  | detached (oid : Nat)
deriving DecidableEq, Repr

/-- The state of a remote repository, visible to fetch. -/
structure RemoteRepo where
  commits : List (Nat × CommitObj)
  trees : List (Nat × TreeEntries)
  refs : List (RefName × Nat)
deriving DecidableEq, Repr

/-- The observable state of an open repository: object store, reference
namespace, HEAD, staging index (with conflict entries), working tree,
in-progress merge state (MERGE_HEAD), a clock stamping commit times, and
whether user.name/user.email are configured. -/
structure GitRepo where
  commits : List (Nat × CommitObj)
  trees : List (Nat × TreeEntries)
  refs : List (RefName × Nat)
  headRef : HeadRef
  bare : Bool
  index : TreeEntries
  conflicts : List String
  workTree : TreeEntries
  mergeHead : Option Nat
  clock : Nat
  sigOk : Bool
  remotes : List (String × RemoteRepo)
deriving DecidableEq, Repr

/-- Commit data surfaced by list_commits. -/
structure CommitInfo where
  hash : String
  message : String
deriving DecidableEq, Repr

/-- First-match lookup in an association list. -/
def assocFind {α β : Type} [DecidableEq α] : List (α × β) → α → Option β
  | [], _ => none
  | (a, b) :: t, k => if a = k then some b else assocFind t k

/-- Overwrite-or-append update of an association list (models a forced
reference update). -/
def setAssoc {α β : Type} [DecidableEq α] : List (α × β) → α → β → List (α × β)
  | [], k, v => [(k, v)]
  | (a, b) :: t, k, v => if a = k then (k, v) :: t else (a, b) :: setAssoc t k v

/-- The parent OIDs of a commit, empty when the OID is not stored. -/
def childParents (cs : List (Nat × CommitObj)) (oid : Nat) : List Nat :=
  match assocFind cs oid with
  | none => []
  | some c => c.parents

/-- Fuel-bounded enumeration of the commits reachable from an OID by
repeatedly following parent links (the ancestor closure libgit2 walks for
merge_base and revwalk).  Under `ParentsLt` a fuel of `oid + 1` is exact. -/
def ancestorsAux (cs : List (Nat × CommitObj)) : Nat → Nat → List Nat
  | 0, _ => []
  | fuel + 1, oid => oid :: (childParents cs oid).flatMap (fun p => ancestorsAux cs fuel p)

/-- The ancestor closure of a commit (itself included). -/
def ancestors (cs : List (Nat × CommitObj)) (oid : Nat) : List Nat :=
  ancestorsAux cs (oid + 1) oid

/-- Reachability in the commit graph: `Reach cs a b` holds when `b` is
`a` or an ancestor of `a` through parent links. -/
inductive Reach (cs : List (Nat × CommitObj)) : Nat → Nat → Prop where
  | refl (a : Nat) : Reach cs a a
  | step {a b p : Nat} (c : CommitObj) :
      Reach cs a b → assocFind cs b = some c → p ∈ c.parents → Reach cs a p

/-- Object-store well-formedness used for graph reasoning: every parent
OID is strictly smaller than its child OID (fresh allocation order) and
names a stored commit, and every stored commit's tree is stored. -/
def WfStore (cs : List (Nat × CommitObj)) (ts : List (Nat × TreeEntries)) : Prop :=
  ∀ e ∈ cs, (∀ p ∈ e.2.parents, p < e.1 ∧ (assocFind cs p).isSome) ∧
    (assocFind ts e.2.tree).isSome

/-- The parent-OIDs-decrease half of `WfStore`, the part most graph
lemmas need. -/
def ParentsLt (cs : List (Nat × CommitObj)) : Prop :=
  ∀ e ∈ cs, ∀ p ∈ e.2.parents, p < e.1

instance (cs : List (Nat × CommitObj)) (ts : List (Nat × TreeEntries)) :
    Decidable (WfStore cs ts) := by
  unfold WfStore
  infer_instance

instance (cs : List (Nat × CommitObj)) : Decidable (ParentsLt cs) := by
  unfold ParentsLt
  infer_instance

/-- Maximum element of a list of naturals, `none` on the empty list. -/
def maxOfList : List Nat → Option Nat
  | [] => none
  | x :: t =>
    match maxOfList t with
    | none => some x
    | some m => some (max x m)

/-- The common ancestors of two commits. -/
def commonAncestors (cs : List (Nat × CommitObj)) (a b : Nat) : List Nat :=
  (ancestors cs a).filter (fun x => decide (x ∈ ancestors cs b))

/-- The best (lowest) common ancestor of two commits, modelling
libgit2's merge_base: with parent OIDs strictly below child OIDs, the
common ancestor with the largest OID is dominated by no other common
ancestor.  `none` models the unrelated-histories failure. -/
def mergeBase (cs : List (Nat × CommitObj)) (a b : Nat) : Option Nat :=
  maxOfList (commonAncestors cs a b)

/-- Outcome of libgit2's merge_analysis against HEAD. -/
inductive AnalysisKind where
  | upToDate
  | fastForward
  | normal
deriving DecidableEq, Repr

/-- Model of git2 merge_analysis of merging target `t` into HEAD commit
`h`: up to date when `t` is already an ancestor of `h`, fast-forward when
`h` is an ancestor of `t`, normal otherwise. -/
def mergeAnalysis (cs : List (Nat × CommitObj)) (h t : Nat) : AnalysisKind :=
  if t ∈ ancestors cs h then .upToDate
  else if h ∈ ancestors cs t then .fastForward
  else .normal

/-- OIDs currently allocated in the object store. -/
def usedOids (s : GitRepo) : List Nat :=
  s.commits.map Prod.fst ++ s.trees.map Prod.fst

/-- A fresh OID, strictly larger than every allocated OID (models
content addressing: a new object gets an identifier unused so far). -/
def freshOid (s : GitRepo) : Nat :=
  (usedOids s).foldr max 0 + 1

namespace GitRepo

/-- create_signature: reads user.name and user.email from config; the
model collapses both required values into the `sigOk` flag. -/
def createSignature (s : GitRepo) : Except String Unit :=
  if s.sigOk then .ok () else .error "Failed to create signature"

/-- repo.head(): resolve HEAD to a commit OID; fails when HEAD is
symbolic and its target reference does not exist (unborn branch). -/
def resolveHead (s : GitRepo) : Except String Nat :=
  match s.headRef with
  | .symbolic r =>
    match assocFind s.refs r with
    | some oid => .ok oid
    | none => .error "Failed to get HEAD"
  | .detached oid => .ok oid

/-- get_head_symbolic_target. -/
def getHeadSymbolicTarget (s : GitRepo) : Except String RefName :=
  match s.headRef with
  | .symbolic t => .ok t
  | .detached _ => .error "HEAD is not a symbolic reference"

/-- get_current_branch: the branch name of the HEAD symbolic target. -/
def getCurrentBranch (s : GitRepo) : Except String String :=
  match s.getHeadSymbolicTarget with
  | .error _ => .error "Failed to get current branch from HEAD"
  | .ok (.head b) => .ok b
  | .ok (.remote _ _) => .error "HEAD is not pointing to a branch"

/-- get_all_branches: the names of the local branch references. -/
def getAllBranches (s : GitRepo) : List String :=
  s.refs.filterMap (fun e =>
    match e.1 with
    | .head b => some b
    | .remote _ _ => none)

/-- Commit with update_ref = HEAD: advance whatever HEAD points to. -/
def updateHeadTargetRef (s : GitRepo) (newOid : Nat) : GitRepo :=
  match s.headRef with
  | .symbolic r => { s with refs := setAssoc s.refs r newOid }
  | .detached _ => { s with headRef := .detached newOid }

/-- checkout_tree: write the given tree contents into the working
directory (and the index, as libgit2 checkout does). -/
def checkoutEntries (s : GitRepo) (entries : TreeEntries) : GitRepo :=
  { s with workTree := entries, index := entries, conflicts := [] }

end GitRepo

/-- Result of the per-path three-way merge rule: `some r` resolves the
path to contents `r` (`none` meaning absent), `none` is a conflict. -/
def mergePath (b o t : Option Nat) : Option (Option Nat) :=
  if o = t then some o
  else if b = o then some t
  else if b = t then some o
  else none

/-- The index produced by a three-way tree merge. -/
structure MergeOut where
  entries : TreeEntries
  conflictPaths : List String
deriving DecidableEq, Repr

/-- Model of libgit2's three-way tree merge at path granularity: a path
changed on only one side takes that side; identical contents agree;
different changes on both sides conflict (conflicted paths keep the
"ours" stage in the index). -/
def threeWayMerge (base ours theirs : TreeEntries) : MergeOut :=
  let keys := (base.map Prod.fst ++ ours.map Prod.fst ++ theirs.map Prod.fst).dedup
  keys.foldr (fun p acc =>
    match mergePath (assocFind base p) (assocFind ours p) (assocFind theirs p) with
    | some (some v) => ⟨(p, v) :: acc.entries, acc.conflictPaths⟩
    | some none => acc
    | none =>
      match assocFind ours p with
      | some v => ⟨(p, v) :: acc.entries, p :: acc.conflictPaths⟩
      | none => ⟨acc.entries, p :: acc.conflictPaths⟩) ⟨[], []⟩

/-- The decision reached by the merge engine, before rendering result
messages. -/
inductive MergeOutcome where
  | upToDate
  | fastForward (oid : Nat)
  | mergeCommitCreated (oid : Nat)
deriving DecidableEq, Repr

/-- Result strings of GitRepo::merge. -/
def renderMergeOutcome : MergeOutcome → String
  | .upToDate => "Already up-to-date"
  | .fastForward oid => "Fast-forward merge: " ++ toString oid
  | .mergeCommitCreated oid => "Merge commit created: " ++ toString oid

/-- Result strings of GitRepo::pull. -/
def renderPullOutcome : MergeOutcome → String
  | .upToDate => "Already up-to-date"
  | .fastForward oid => "Fast-forward pull: " ++ toString oid
  | .mergeCommitCreated oid => "Pull merge commit created: " ++ toString oid

namespace GitRepo

/-- GitRepo::merge (src/git/merge/operations.rs), with the result message
factored into a `MergeOutcome`: resolve signature, target branch and
HEAD; return up to date when they coincide; fast-forward when the merge
base is HEAD (move the current branch reference, then force-checkout the
target tree unless bare); up to date when the merge base is the target;
otherwise read HEAD's tree into the index, run merge analysis, three-way
merge, fail on conflicts leaving the conflicted index, else write the
merged tree, create a two-parent commit advancing HEAD, and clear the
merge state. -/
def mergeO (s : GitRepo) (branchName : String) (message : Option String) :
    Except String MergeOutcome × GitRepo :=
  match s.createSignature with
  | .error e => (.error e, s)
  | .ok _ =>
  match assocFind s.refs (.head branchName) with
  | none => (.error ("Failed to find branch " ++ branchName), s)
  | some targetOid =>
  match assocFind s.commits targetOid with
  | none => (.error "Failed to get target commit", s)
  | some targetCommit =>
  match s.resolveHead with
  | .error _ => (.error "Failed to get HEAD", s)
  | .ok headOid =>
  match assocFind s.commits headOid with
  | none => (.error "Failed to get current commit", s)
  | some headCommit =>
  if headOid = targetOid then (.ok .upToDate, s)
  else
    match mergeBase s.commits headOid targetOid with
    | none => (.error "Failed to find merge base", s)
    | some base =>
    if base = headOid then
      match s.getCurrentBranch with
      | .error _ => (.error "Failed to get current branch", s)
      | .ok currentBranchName =>
        let s1 : GitRepo := { s with refs := setAssoc s.refs (.head currentBranchName) targetOid }
        if s1.bare then (.ok (.fastForward targetOid), s1)
        else
          match assocFind s1.trees targetCommit.tree with
          | none => (.error "Failed to get target tree", s1)
          | some targetEntries => (.ok (.fastForward targetOid), s1.checkoutEntries targetEntries)
    else if base = targetOid then (.ok .upToDate, s)
    else
      match assocFind s.trees headCommit.tree with
      | none => (.error "Failed to get HEAD tree", s)
      | some headEntries =>
      let s1 : GitRepo := { s with index := headEntries, conflicts := [] }
      match assocFind s1.commits targetOid with
      | none => (.error "Failed to create annotated commit", s1)
      | some _ =>
      match mergeAnalysis s1.commits headOid targetOid with
      | .upToDate => (.ok .upToDate, s1)
      | .fastForward =>
        (.ok (.fastForward targetOid), { s1 with headRef := .detached targetOid })
      | .normal =>
        match assocFind s1.commits base with
        | none => (.error "Failed to perform merge", s1)
        | some baseCommit =>
        match assocFind s1.trees baseCommit.tree with
        | none => (.error "Failed to perform merge", s1)
        | some baseEntries =>
        match assocFind s1.trees targetCommit.tree with
        | none => (.error "Failed to perform merge", s1)
        | some targetEntries =>
        let m := threeWayMerge baseEntries headEntries targetEntries
        let s2 : GitRepo := { s1 with
          index := m.entries, conflicts := m.conflictPaths,
          workTree := if s1.bare then s1.workTree else m.entries,
          mergeHead := some targetOid }
        if m.conflictPaths.isEmpty then
          let treeOid := freshOid s2
          let s3 : GitRepo := { s2 with trees := (treeOid, s2.index) :: s2.trees }
          let commitMessage := message.getD ("Merge branch \x27" ++ branchName ++ "\x27")
          let newOid := freshOid s3
          let s4 : GitRepo := { s3 with
            commits := (newOid, ⟨[headOid, targetOid], treeOid, commitMessage, s3.clock⟩) :: s3.commits,
            clock := s3.clock + 1 }
          let s5 := s4.updateHeadTargetRef newOid
          (.ok (.mergeCommitCreated newOid), { s5 with mergeHead := none })
        else
          (.error "Merge conflicts detected. Please resolve conflicts and commit manually.", s2)

/-- GitRepo::merge with its result rendered to the source's strings. -/
def merge (s : GitRepo) (branchName : String) (message : Option String) :
    Except String String × GitRepo :=
  let r := s.mergeO branchName message
  (r.1.map renderMergeOutcome, r.2)

/-- GitRepo::checkout_branch (src/git/branches/operations.rs): resolve
the branch, check out its commit tree unless bare, then re-point HEAD. -/
def checkoutBranch (s : GitRepo) (branchName : String) : Except String Unit × GitRepo :=
  match assocFind s.refs (.head branchName) with
  | none => (.error ("revspec refs/heads/" ++ branchName ++ " not found"), s)
  | some oid =>
    if s.bare then (.ok (), { s with headRef := .symbolic (.head branchName) })
    else
      match assocFind s.commits oid with
      | none => (.error "Failed to checkout tree", s)
      | some c =>
        match assocFind s.trees c.tree with
        | none => (.error "Failed to checkout tree", s)
        | some entries =>
          let s1 := s.checkoutEntries entries
          (.ok (), { s1 with headRef := .symbolic (.head branchName) })

/-- GitRepo::create_and_checkout_branch: with a resolvable HEAD create
the branch at HEAD's commit and re-point HEAD to it; on an unborn HEAD
only re-point HEAD (no branch reference is created). -/
def createAndCheckoutBranch (s : GitRepo) (branchName : String) : Except String Unit × GitRepo :=
  match s.resolveHead with
  | .ok headOid =>
    match assocFind s.commits headOid with
    | none => (.error "Failed to find HEAD commit", s)
    | some _ =>
      if (assocFind s.refs (.head branchName)).isSome then
        (.error "Failed to create branch", s)
      else
        (.ok (), { s with
                   refs := setAssoc s.refs (.head branchName) headOid,
                   headRef := .symbolic (.head branchName) })
  | .error _ =>
    (.ok (), { s with headRef := .symbolic (.head branchName) })

/-- Tail of GitRepo::commit after the tree is written and the parent
list is resolved: create the commit object and advance HEAD's target. -/
def commitFinish (s1 : GitRepo) (treeOid : Nat) (message : String) (parents : List Nat) :
    Except String String × GitRepo :=
  let newOid := freshOid s1
  let s2 : GitRepo := { s1 with
    commits := (newOid, ⟨parents, treeOid, message, s1.clock⟩) :: s1.commits,
    clock := s1.clock + 1 }
  (.ok (toString newOid), s2.updateHeadTargetRef newOid)

/-- GitRepo::commit (src/git/commits/operations.rs): write the index as
a tree, resolve the optional parent from HEAD (none when unborn), create
the commit and advance HEAD's target reference. -/
def commit (s : GitRepo) (message : String) : Except String String × GitRepo :=
  match s.createSignature with
  | .error e => (.error e, s)
  | .ok _ =>
    let treeOid := freshOid s
    let s1 : GitRepo := { s with trees := (treeOid, s.index) :: s.trees }
    match s1.resolveHead with
    | .ok parentOid =>
      match assocFind s1.commits parentOid with
      | none => (.error "Failed to find parent commit", s1)
      | some _ => commitFinish s1 treeOid message [parentOid]
    | .error _ => commitFinish s1 treeOid message []

/-- Shared tail of is_branch_merged_to_main once the mainline OID is
resolved. -/
def mergedCheck (cs : List (Nat × CommitObj)) (branchOid mainOid : Nat) : Except String Bool :=
  match mergeBase cs branchOid mainOid with
  | none => .error "Failed to find merge base"
  | some mb => .ok (mb == branchOid)

/-- GitRepo::is_branch_merged_to_main: the branch tip equals the merge
base with the mainline, resolved as refs/heads/main first and
refs/heads/master second. -/
def isBranchMergedToMain (s : GitRepo) (branchName : String) : Except String Bool :=
  match assocFind s.refs (.head branchName) with
  | none => .error "Failed to find branch reference"
  | some branchOid =>
    match assocFind s.refs (.head "main") with
    | some mainOid => mergedCheck s.commits branchOid mainOid
    | none =>
      match assocFind s.refs (.head "master") with
      | none => .error "Failed to find main/master branch"
      | some mainOid => mergedCheck s.commits branchOid mainOid

/-- GitRepo::init (src/git/repository/core.rs): an empty store with HEAD
set symbolically to refs/heads/master (an unborn branch).  Whether the
user identity is configured is an input of the environment. -/
def init (sig : Bool) : GitRepo :=
  { commits := [], trees := [], refs := [], headRef := .symbolic (.head "master"),
    bare := false, index := [], conflicts := [], workTree := [], mergeHead := none,
    clock := 0, sigOk := sig, remotes := [] }

/-- GitRepo::init_bare: as init, marked bare. -/
def initBare (sig : Bool) : GitRepo :=
  let s := GitRepo.init sig
  { s with bare := true }

end GitRepo

namespace GitRepo

/-- Transfer the remote's objects that are not yet in the local store
(content addressing: an OID already present denotes the same object). -/
def fetchObjects (s : GitRepo) (r : RemoteRepo) : GitRepo × Nat :=
  let newCommits := r.commits.filter (fun e => (assocFind s.commits e.1).isNone)
  let newTrees := r.trees.filter (fun e => (assocFind s.trees e.1).isNone)
  ({ s with commits := s.commits ++ newCommits, trees := s.trees ++ newTrees },
   newCommits.length + newTrees.length)

/-- GitRepo::fetch (src/git/remotes/sync.rs): with a branch given, fetch
refs/heads/branch into the remote-tracking reference
refs/remotes/remote/branch; with none, fetch every branch per the
default refspec.  Reports the number of objects received, or that the
repository is already up to date. -/
def fetch (s : GitRepo) (remoteName : String) (branchName : Option String) :
    Except String String × GitRepo :=
  match assocFind s.remotes remoteName with
  | none => (.error ("Remote \x27" ++ remoteName ++ "\x27 not found"), s)
  | some r =>
    match branchName with
    | some branch =>
      match assocFind r.refs (.head branch) with
      | none => (.error "Failed to fetch from remote", s)
      | some oid =>
        let or := s.fetchObjects r
        let s1 : GitRepo := { or.1 with refs := setAssoc or.1.refs (.remote remoteName branch) oid }
        if 0 < or.2 then
          (.ok ("Fetched " ++ toString or.2 ++ " objects from " ++ remoteName), s1)
        else
          (.ok "Already up-to-date", s1)
    | none =>
      let or := s.fetchObjects r
      let s1 : GitRepo := { or.1 with
        refs := r.refs.foldl (fun acc e =>
          match e.1 with
          | .head b => setAssoc acc (.remote remoteName b) e.2
          | .remote _ _ => acc) or.1.refs }
      if 0 < or.2 then
        (.ok ("Fetched " ++ toString or.2 ++ " objects from " ++ remoteName), s1)
      else
        (.ok "Already up-to-date", s1)

/-- The merge phase of GitRepo::pull (src/git/remotes/sync.rs, after the
fetch): the same decision procedure as GitRepo::mergeO, applied between
HEAD and the remote-tracking reference remoteName/targetBranch, with the
signature resolved only when a merge commit is needed and the merge
commit message fixed to name the remote branch. -/
def pullMergePhase (s : GitRepo) (remoteName targetBranch : String) :
    Except String MergeOutcome × GitRepo :=
  match assocFind s.refs (.remote remoteName targetBranch) with
  | none =>
    (.error ("Remote branch \x27" ++ remoteName ++ "/" ++ targetBranch ++
      "\x27 not found after fetch"), s)
  | some remoteOid =>
  match assocFind s.commits remoteOid with
  | none => (.error "Failed to get remote commit", s)
  | some remoteCommit =>
  match s.resolveHead with
  | .error _ => (.error "Failed to get HEAD", s)
  | .ok headOid =>
  match assocFind s.commits headOid with
  | none => (.error "Failed to get current commit", s)
  | some headCommit =>
  if headOid = remoteOid then (.ok .upToDate, s)
  else
    match mergeBase s.commits headOid remoteOid with
    | none => (.error "Failed to find merge base", s)
    | some base =>
    if base = headOid then
      match s.getCurrentBranch with
      | .error _ => (.error "Failed to get current branch", s)
      | .ok currentBranchName =>
        let s1 : GitRepo := { s with refs := setAssoc s.refs (.head currentBranchName) remoteOid }
        if s1.bare then (.ok (.fastForward remoteOid), s1)
        else
          match assocFind s1.trees remoteCommit.tree with
          | none => (.error "Failed to get remote tree", s1)
          | some remoteEntries => (.ok (.fastForward remoteOid), s1.checkoutEntries remoteEntries)
    else if base = remoteOid then (.ok .upToDate, s)
    else
      match s.createSignature with
      | .error e => (.error e, s)
      | .ok _ =>
      match assocFind s.trees headCommit.tree with
      | none => (.error "Failed to get HEAD tree", s)
      | some headEntries =>
      let s1 : GitRepo := { s with index := headEntries, conflicts := [] }
      match assocFind s1.commits remoteOid with
      | none => (.error "Failed to create annotated commit", s1)
      | some _ =>
      match mergeAnalysis s1.commits headOid remoteOid with
      | .upToDate => (.ok .upToDate, s1)
      | .fastForward =>
        (.ok (.fastForward remoteOid),
         { s1 with refs := setAssoc s1.refs (.head targetBranch) remoteOid })
      | .normal =>
        match assocFind s1.commits base with
        | none => (.error "Failed to perform merge", s1)
        | some baseCommit =>
        match assocFind s1.trees baseCommit.tree with
        | none => (.error "Failed to perform merge", s1)
        | some baseEntries =>
        match assocFind s1.trees remoteCommit.tree with
        | none => (.error "Failed to perform merge", s1)
        | some remoteEntries =>
        let m := threeWayMerge baseEntries headEntries remoteEntries
        let s2 : GitRepo := { s1 with
          index := m.entries, conflicts := m.conflictPaths,
          workTree := if s1.bare then s1.workTree else m.entries,
          mergeHead := some remoteOid }
        if m.conflictPaths.isEmpty then
          let treeOid := freshOid s2
          let s3 : GitRepo := { s2 with trees := (treeOid, s2.index) :: s2.trees }
          let commitMessage := "Merge branch \x27" ++ remoteName ++ "/" ++ targetBranch ++
            "\x27 into " ++ targetBranch
          let newOid := freshOid s3
          let s4 : GitRepo := { s3 with
            commits := (newOid, ⟨[headOid, remoteOid], treeOid, commitMessage, s3.clock⟩) :: s3.commits,
            clock := s3.clock + 1 }
          let s5 := s4.updateHeadTargetRef newOid
          (.ok (.mergeCommitCreated newOid), { s5 with mergeHead := none })
        else
          (.error "Merge conflicts detected during pull. Please resolve conflicts and commit manually.", s2)

/-- GitRepo::pull: resolve the target branch (the current branch when
none is given), fetch it from the remote, then run the merge phase
against the remote-tracking reference, rendering pull result strings. -/
def pull (s : GitRepo) (remoteName : String) (branchName : Option String) :
    Except String String × GitRepo :=
  match (match branchName with
         | some b => Except.ok b
         | none => s.getCurrentBranch) with
  | .error _ => (.error "Failed to get current branch", s)
  | .ok targetBranch =>
    let fr := s.fetch remoteName (some targetBranch)
    match fr.1 with
    | .error _ => (.error "Failed to fetch from remote", fr.2)
    | .ok _ =>
      let pr := fr.2.pullMergePhase remoteName targetBranch
      (pr.1.map renderPullOutcome, pr.2)

end GitRepo

/-- The commit time used by the revwalk priority queue (0 for an OID
missing from the store). -/
def timeOf (cs : List (Nat × CommitObj)) (oid : Nat) : Nat :=
  match assocFind cs oid with
  | none => 0
  | some c => c.time

/-- A commit is ready to be emitted when no other pending commit still
descends from it (the topological constraint of Sort::TOPOLOGICAL). -/
def readyIn (cs : List (Nat × CommitObj)) (pending : List Nat) (c : Nat) : Bool :=
  pending.all (fun d => d == c || !((ancestors cs d).contains c))

/-- Of a candidate list, an element with maximal commit time, preferring
the earliest on ties (Sort::TIME within the topological order). -/
def maxTimeElem (cs : List (Nat × CommitObj)) : List Nat → Option Nat
  | [] => none
  | x :: t =>
    match maxTimeElem cs t with
    | none => some x
    | some m => if timeOf cs m > timeOf cs x then some m else some x

/-- One revwalk emission loop: repeatedly emit the newest ready pending
commit. -/
def walkAux (cs : List (Nat × CommitObj)) : Nat → List Nat → List Nat
  | 0, _ => []
  | fuel + 1, pending =>
    match maxTimeElem cs (pending.filter (fun c => readyIn cs pending c)) with
    | none => []
    | some c => c :: walkAux cs fuel (pending.erase c)

/-- Model of git2's revwalk with Sort::TOPOLOGICAL ||| Sort::TIME pushed
at a head commit: emit the commits reachable from the head so that every
commit precedes its ancestors, choosing the newest ready commit first. -/
def revwalk (cs : List (Nat × CommitObj)) (head : Nat) : List Nat :=
  let pending := (ancestors cs head).dedup
  walkAux cs pending.length pending

/-- find_commit over a walk result, building CommitInfo records. -/
def commitInfosOf (cs : List (Nat × CommitObj)) : List Nat → Except String (List CommitInfo)
  | [] => .ok []
  | oid :: t =>
    match assocFind cs oid with
    | none => .error "Failed to find commit"
    | some c =>
      match commitInfosOf cs t with
      | .error e => .error e
      | .ok r => .ok (⟨toString oid, c.message⟩ :: r)

/-- GitRepo::list_commits (src/git/commits/operations.rs): an empty list
on an unborn HEAD, otherwise the revwalk from HEAD with topological/time
sorting mapped to hash and message. -/
def GitRepo.listCommits (s : GitRepo) : Except String (List CommitInfo) :=
  match s.resolveHead with
  | .error _ => .ok []
  | .ok head => commitInfosOf s.commits (revwalk s.commits head)

/-- All reference targets name stored commits. -/
def RefsValid (s : GitRepo) : Prop :=
  ∀ e ∈ s.refs, (assocFind s.commits e.2).isSome

instance (s : GitRepo) : Decidable (RefsValid s) := by
  unfold RefsValid
  infer_instance

/-- Erase commit messages, the only state component in which the merge
performed by pull and the merge performed by merge may differ. -/
def eraseMessages (s : GitRepo) : GitRepo :=
  { s with commits := s.commits.map (fun e => (e.1, { e.2 with message := "" })) }

/-- A strict ancestor: an ancestor other than the commit itself. -/
def isStrictAncestor (cs : List (Nat × CommitObj)) (a d : Nat) : Prop :=
  a ≠ d ∧ a ∈ ancestors cs d

-- Concrete repositories used as witnesses.

def exTree1 : TreeEntries := [("a", 100)]
def exTree2 : TreeEntries := [("a", 100), ("b", 101)]
def exTree3 : TreeEntries := [("a", 100), ("c", 102)]
def exTree2c : TreeEntries := [("a", 200)]
def exTree3c : TreeEntries := [("a", 300)]

def exC1 : CommitObj := ⟨[], 11, "root", 0⟩
def exC2 : CommitObj := ⟨[1], 12, "ours", 1⟩
def exC3 : CommitObj := ⟨[1], 13, "theirs", 2⟩
def exC4 : CommitObj := ⟨[2, 3], 14, "merge", 3⟩

/-- Two branches diverged from a common root, mergeable cleanly. -/
def exDiverged : GitRepo :=
  { commits := [(1, exC1), (2, exC2), (3, exC3)],
    trees := [(11, exTree1), (12, exTree2), (13, exTree3)],
    refs := [(.head "master", 2), (.head "feature", 3)],
    headRef := .symbolic (.head "master"),
    bare := false, index := exTree2, conflicts := [], workTree := exTree2,
    mergeHead := none, clock := 5, sigOk := true, remotes := [] }

/-- The feature branch strictly ahead of master. -/
def exFF : GitRepo :=
  { exDiverged with refs := [(.head "master", 1), (.head "feature", 3)] }

/-- Both branches on the same commit. -/
def exSame : GitRepo :=
  { exDiverged with refs := [(.head "master", 2), (.head "feature", 2)] }

/-- Master already ahead of the feature branch. -/
def exAhead : GitRepo :=
  { commits := [(1, exC1), (2, exC2), (3, exC3), (4, exC4)],
    trees := [(11, exTree1), (12, exTree2), (13, exTree3), (14, exTree2)],
    refs := [(.head "master", 4), (.head "feature", 3)],
    headRef := .symbolic (.head "master"),
    bare := false, index := exTree2, conflicts := [], workTree := exTree2,
    mergeHead := none, clock := 5, sigOk := true, remotes := [] }

/-- Diverged branches that edit the same path differently. -/
def exConflict : GitRepo :=
  { exDiverged with trees := [(11, exTree1), (12, exTree2c), (13, exTree3c)] }

/-- A remote holding just the root commit on master. -/
def exRemote : RemoteRepo :=
  { commits := [(1, exC1)], trees := [(11, exTree1)], refs := [(.head "master", 1)] }

/-- A repository on the same commit as its remote, with no committer
identity configured. -/
def exPullNoSig : GitRepo :=
  { commits := [(1, exC1)], trees := [(11, exTree1)],
    refs := [(.head "master", 1)],
    headRef := .symbolic (.head "master"),
    bare := false, index := exTree1, conflicts := [], workTree := exTree1,
    mergeHead := none, clock := 5, sigOk := false, remotes := [("origin", exRemote)] }

/-- A repository whose feature branch and origin/feature tracking
reference point at the same commit, ahead of master. -/
def exPullBoth : GitRepo :=
  { exDiverged with
    refs := [(.head "master", 1), (.head "feature", 3), (.remote "origin" "feature", 3)] }

/-- Diverged branches with the mainline named "main". -/
def exMain : GitRepo :=
  { exDiverged with
    refs := [(.head "main", 2), (.head "feature", 3)],
    headRef := .symbolic (.head "main") }

/-- The fast-forwardable repository with no committer identity. -/
def exFFNoSig : GitRepo :=
  { exFF with sigOk := false }

/-- The both-branches-on-one-commit repository with no committer
identity. -/
def exSameNoSig : GitRepo :=
  { exSame with sigOk := false }

-- ===================== theorems =====================

theorem assocFind_mem {α β : Type} [DecidableEq α] {l : List (α × β)} {k : α} {v : β}
    (h : assocFind l k = some v) : (k, v) ∈ l := by
  induction l with
  | nil => simp [assocFind] at h
  | cons e t ih =>
    obtain ⟨a, b⟩ := e
    by_cases hk : a = k
    · subst hk
      simp [assocFind] at h
      simp [h]
    · simp [assocFind, hk] at h
      exact List.mem_cons_of_mem _ (ih h)

theorem assocFind_setAssoc_self {α β : Type} [DecidableEq α] (l : List (α × β)) (k : α) (v : β) :
    assocFind (setAssoc l k v) k = some v := by
  induction l with
  | nil => simp [setAssoc, assocFind]
  | cons e t ih =>
    obtain ⟨a, b⟩ := e
    by_cases hk : a = k
    · subst hk
      simp [setAssoc, assocFind]
    · simp [setAssoc, hk, assocFind, ih]

theorem assocFind_setAssoc_ne {α β : Type} [DecidableEq α] (l : List (α × β)) {k k' : α} (v : β)
    (h : k' ≠ k) : assocFind (setAssoc l k v) k' = assocFind l k' := by
  induction l with
  | nil => simp [setAssoc, assocFind, Ne.symm h]
  | cons e t ih =>
    obtain ⟨a, b⟩ := e
    by_cases hk : a = k
    · subst hk
      simp [setAssoc, assocFind, Ne.symm h]
    · by_cases hk' : a = k'
      · subst hk'
        simp [setAssoc, hk, assocFind]
      · simp [setAssoc, hk, assocFind, hk', ih]

theorem Reach.trans {cs : List (Nat × CommitObj)} {a b c : Nat}
    (h1 : Reach cs a b) (h2 : Reach cs b c) : Reach cs a c := by
  induction h2 with
  | refl => exact h1
  | step cdata _ hfind hp ih => exact Reach.step cdata ih hfind hp

theorem reach_of_parent {cs : List (Nat × CommitObj)} {b p : Nat}
    (h : p ∈ childParents cs b) : Reach cs b p := by
  unfold childParents at h
  cases hc : assocFind cs b with
  | none => rw [hc] at h; simp at h
  | some cdata =>
    rw [hc] at h
    exact Reach.step cdata (Reach.refl b) hc h

theorem WfStore.parentsLt {cs : List (Nat × CommitObj)} {ts : List (Nat × TreeEntries)}
    (h : WfStore cs ts) : ParentsLt cs :=
  fun e he p hp => ((h e he).1 p hp).1

theorem ParentsLt.lt_of_childParents {cs : List (Nat × CommitObj)} (hw : ParentsLt cs)
    {oid p : Nat} (hp : p ∈ childParents cs oid) : p < oid := by
  unfold childParents at hp
  cases hc : assocFind cs oid with
  | none => rw [hc] at hp; simp at hp
  | some c =>
    rw [hc] at hp
    exact hw (oid, c) (assocFind_mem hc) p hp

theorem mem_ancestorsAux_self (cs : List (Nat × CommitObj)) {fuel : Nat} (h : 0 < fuel)
    (oid : Nat) : oid ∈ ancestorsAux cs fuel oid := by
  cases fuel with
  | zero => omega
  | succ n => simp [ancestorsAux]

theorem mem_ancestors_self (cs : List (Nat × CommitObj)) (oid : Nat) :
    oid ∈ ancestors cs oid :=
  mem_ancestorsAux_self cs (Nat.succ_pos _) oid

theorem le_of_mem_ancestorsAux {cs : List (Nat × CommitObj)} (hw : ParentsLt cs) :
    ∀ {fuel a b : Nat}, b ∈ ancestorsAux cs fuel a → b ≤ a := by
  intro fuel
  induction fuel with
  | zero => intro a b h; simp [ancestorsAux] at h
  | succ n ih =>
    intro a b h
    simp only [ancestorsAux, List.mem_cons, List.mem_flatMap] at h
    rcases h with h | ⟨p, hp, hbp⟩
    · omega
    · have h1 : b ≤ p := ih hbp
      have h2 : p < a := hw.lt_of_childParents hp
      omega

theorem le_of_mem_ancestors {cs : List (Nat × CommitObj)} (hw : ParentsLt cs)
    {a b : Nat} (h : b ∈ ancestors cs a) : b ≤ a :=
  le_of_mem_ancestorsAux hw h

theorem ancestorsAux_fuel_eq {cs : List (Nat × CommitObj)} (hw : ParentsLt cs) :
    ∀ (a fuel fuel' : Nat), a < fuel → a < fuel' →
      ancestorsAux cs fuel a = ancestorsAux cs fuel' a := by
  intro a
  induction a using Nat.strong_induction_on with
  | _ a ih =>
    intro fuel fuel' h h'
    cases fuel with
    | zero => omega
    | succ n =>
      cases fuel' with
      | zero => omega
      | succ n' =>
        simp only [ancestorsAux]
        congr 1
        apply List.flatMap_congr
        intro p hp
        have hpa : p < a := hw.lt_of_childParents hp
        exact ih p hpa n n' (by omega) (by omega)

theorem ancestorsAux_eq_ancestors {cs : List (Nat × CommitObj)} (hw : ParentsLt cs)
    {a fuel : Nat} (h : a < fuel) : ancestorsAux cs fuel a = ancestors cs a :=
  ancestorsAux_fuel_eq hw a fuel (a + 1) h (Nat.lt_succ_self a)

theorem mem_ancestors_trans {cs : List (Nat × CommitObj)} (hw : ParentsLt cs) :
    ∀ {a b c : Nat}, b ∈ ancestors cs a → c ∈ ancestors cs b → c ∈ ancestors cs a := by
  have main : ∀ (fuel a b c : Nat), a < fuel → b ∈ ancestorsAux cs fuel a →
      c ∈ ancestors cs b → c ∈ ancestorsAux cs fuel a := by
    intro fuel
    induction fuel with
    | zero => intro a b c h _ _; omega
    | succ n ih =>
      intro a b c ha hb hc
      simp only [ancestorsAux, List.mem_cons, List.mem_flatMap] at hb ⊢
      rcases hb with hb | ⟨p, hp, hbp⟩
      · rw [hb] at hc
        unfold ancestors at hc
        rw [ancestorsAux_fuel_eq hw a (a + 1) (n + 1) (by omega) (by omega)] at hc
        simp only [ancestorsAux, List.mem_cons, List.mem_flatMap] at hc
        exact hc
      · have hpa : p < a := hw.lt_of_childParents hp
        right
        exact ⟨p, hp, ih p b c (by omega) hbp hc⟩
  intro a b c hb hc
  exact main (a + 1) a b c (Nat.lt_succ_self a) hb hc

theorem mem_ancestors_iff_reach {cs : List (Nat × CommitObj)} (hw : ParentsLt cs)
    {a b : Nat} : b ∈ ancestors cs a ↔ Reach cs a b := by
  constructor
  · have main : ∀ (fuel a b : Nat), b ∈ ancestorsAux cs fuel a → Reach cs a b := by
      intro fuel
      induction fuel with
      | zero => intro a b h; simp [ancestorsAux] at h
      | succ n ih =>
        intro a b h
        simp only [ancestorsAux, List.mem_cons, List.mem_flatMap] at h
        rcases h with h | ⟨p, hp, hbp⟩
        · rw [h]; exact Reach.refl a
        · exact Reach.trans (reach_of_parent hp) (ih p b hbp)
    exact main (a + 1) a b
  · intro h
    induction h with
    | refl => exact mem_ancestors_self cs _
    | step cdata _ hfind hp ihh =>
      rename_i b' p' hr
      apply mem_ancestors_trans hw ihh
      have hcp : p' ∈ childParents cs b' := by
        unfold childParents
        rw [hfind]
        exact hp
      have hlt := hw.lt_of_childParents hcp
      unfold ancestors
      simp only [ancestorsAux, List.mem_cons, List.mem_flatMap]
      right
      exact ⟨_, hcp, mem_ancestorsAux_self cs (by omega) _⟩

theorem maxOfList_mem : ∀ {l : List Nat} {m : Nat}, maxOfList l = some m → m ∈ l := by
  intro l
  induction l with
  | nil => intro m h; simp [maxOfList] at h
  | cons x t ih =>
    intro m h
    simp only [maxOfList] at h
    cases ht : maxOfList t with
    | none => rw [ht] at h; simp at h; simp [h]
    | some m' =>
      rw [ht] at h
      simp at h
      rcases Nat.le_total x m' with hle | hle
      · rw [Nat.max_eq_right hle] at h
        exact List.mem_cons_of_mem _ (ih (by rw [ht, h]))
      · rw [Nat.max_eq_left hle] at h
        simp [h]

theorem maxOfList_eq_none_iff {l : List Nat} : maxOfList l = none ↔ l = [] := by
  cases l with
  | nil => simp [maxOfList]
  | cons x t =>
    simp only [maxOfList]
    cases maxOfList t <;> simp

theorem le_maxOfList : ∀ {l : List Nat} {x m : Nat}, maxOfList l = some m → x ∈ l → x ≤ m := by
  intro l
  induction l with
  | nil => intro x m _ hx; simp at hx
  | cons y t ih =>
    intro x m h hx
    simp only [maxOfList] at h
    cases ht : maxOfList t with
    | none =>
      rw [ht] at h
      simp at h
      have hte : t = [] := maxOfList_eq_none_iff.mp ht
      subst hte
      simp at hx
      omega
    | some m' =>
      rw [ht] at h
      simp at h
      rcases List.mem_cons.mp hx with hx | hx
      · omega
      · have := ih ht hx
        omega

theorem maxOfList_isSome_of_mem {l : List Nat} {x : Nat} (hx : x ∈ l) :
    (maxOfList l).isSome := by
  cases l with
  | nil => simp at hx
  | cons y t =>
    simp only [maxOfList]
    cases maxOfList t <;> simp

theorem maxOfList_eq_of_mem_of_le {l : List Nat} {a : Nat} (ha : a ∈ l)
    (hle : ∀ x ∈ l, x ≤ a) : maxOfList l = some a := by
  cases hm : maxOfList l with
  | none =>
    have := maxOfList_isSome_of_mem ha
    rw [hm] at this
    simp at this
  | some m =>
    have h1 : m ∈ l := maxOfList_mem hm
    have h2 : a ≤ m := le_maxOfList hm ha
    have h3 : m ≤ a := hle m h1
    have : m = a := by omega
    rw [this]

theorem maxOfList_congr {l l' : List Nat} (h : ∀ x, x ∈ l ↔ x ∈ l') :
    maxOfList l = maxOfList l' := by
  cases hm : maxOfList l with
  | none =>
    cases hm' : maxOfList l' with
    | none => rfl
    | some m' =>
      have h1 : m' ∈ l := (h m').mpr (maxOfList_mem hm')
      have := maxOfList_isSome_of_mem h1
      rw [hm] at this
      simp at this
  | some m =>
    have h1 : m ∈ l' := (h m).mp (maxOfList_mem hm)
    have h2 : ∀ x ∈ l', x ≤ m := fun x hx => le_maxOfList hm ((h x).mpr hx)
    exact (maxOfList_eq_of_mem_of_le h1 h2).symm

theorem mem_commonAncestors {cs : List (Nat × CommitObj)} {a b x : Nat} :
    x ∈ commonAncestors cs a b ↔ x ∈ ancestors cs a ∧ x ∈ ancestors cs b := by
  simp [commonAncestors]

theorem mergeBase_mem {cs : List (Nat × CommitObj)} {a b m : Nat}
    (h : mergeBase cs a b = some m) : m ∈ ancestors cs a ∧ m ∈ ancestors cs b :=
  mem_commonAncestors.mp (maxOfList_mem h)

theorem mergeBase_comm {cs : List (Nat × CommitObj)} (a b : Nat) :
    mergeBase cs a b = mergeBase cs b a := by
  unfold mergeBase
  apply maxOfList_congr
  intro x
  rw [mem_commonAncestors, mem_commonAncestors]
  exact and_comm

theorem mergeBase_eq_left_iff {cs : List (Nat × CommitObj)} (hw : ParentsLt cs)
    {a b : Nat} : mergeBase cs a b = some a ↔ a ∈ ancestors cs b := by
  constructor
  · intro h
    exact (mergeBase_mem h).2
  · intro h
    apply maxOfList_eq_of_mem_of_le
    · exact mem_commonAncestors.mpr ⟨mem_ancestors_self cs a, h⟩
    · intro x hx
      exact le_of_mem_ancestors hw (mem_commonAncestors.mp hx).1

theorem mergeBase_eq_right_iff {cs : List (Nat × CommitObj)} (hw : ParentsLt cs)
    {a b : Nat} : mergeBase cs a b = some b ↔ b ∈ ancestors cs a := by
  rw [mergeBase_comm]
  exact mergeBase_eq_left_iff hw

theorem mergeBase_self {cs : List (Nat × CommitObj)} (hw : ParentsLt cs) (a : Nat) :
    mergeBase cs a a = some a :=
  (mergeBase_eq_left_iff hw).mpr (mem_ancestors_self cs a)

theorem mergeAnalysis_normal_of_base_ne {cs : List (Nat × CommitObj)} (hw : ParentsLt cs)
    {h t b : Nat} (hb : mergeBase cs h t = some b) (hbh : b ≠ h) (hbt : b ≠ t) :
    mergeAnalysis cs h t = .normal := by
  have h1 : t ∉ ancestors cs h := by
    intro hmem
    have h2 := (mergeBase_eq_right_iff hw).mpr hmem
    rw [hb] at h2
    exact hbt (Option.some_inj.mp h2)
  have h2 : h ∉ ancestors cs t := by
    intro hmem
    have h3 := (mergeBase_eq_left_iff hw).mpr hmem
    rw [hb] at h3
    exact hbh (Option.some_inj.mp h3)
  unfold mergeAnalysis
  rw [if_neg h1, if_neg h2]

theorem lt_freshOid {s : GitRepo} {k : Nat} (h : k ∈ usedOids s) : k < freshOid s := by
  unfold freshOid
  have : ∀ l : List Nat, k ∈ l → k ≤ l.foldr max 0 := by
    intro l
    induction l with
    | nil => intro h'; simp at h'
    | cons x t ih =>
      intro h'
      rcases List.mem_cons.mp h' with h' | h'
      · simp [h', List.foldr]
      · have := ih h'
        simp [List.foldr]
        omega
  have := this _ h
  omega

/-- C10: init and init_bare set HEAD symbolically to refs/heads/master,
so get_current_branch returns "master" on the unborn repository while
get_all_branches returns the empty list. -/
theorem init_sets_unborn_master (sig : Bool) :
    (GitRepo.init sig).headRef = .symbolic (.head "master") ∧
    (GitRepo.init sig).getCurrentBranch = .ok "master" ∧
    (GitRepo.init sig).getAllBranches = [] ∧
    (GitRepo.initBare sig).bare = true ∧
    (GitRepo.initBare sig).headRef = .symbolic (.head "master") ∧
    (GitRepo.initBare sig).getCurrentBranch = .ok "master" ∧
    (GitRepo.initBare sig).getAllBranches = [] := by
  refine ⟨rfl, rfl, rfl, rfl, rfl, rfl, rfl⟩

/-- C7: on a repository with no references (zero commits),
create_and_checkout_branch only re-points HEAD, leaving the branch list
empty; the first commit afterwards creates the branch, making the branch
list exactly that one name. -/
theorem create_and_checkout_branch_unborn (s : GitRepo) (name msg : String) (t : RefName)
    (hrefs : s.refs = []) (hhead : s.headRef = .symbolic t) (hsig : s.sigOk = true) :
    (s.createAndCheckoutBranch name).1 = .ok () ∧
    (s.createAndCheckoutBranch name).2 = { s with headRef := .symbolic (.head name) } ∧
    (s.createAndCheckoutBranch name).2.getAllBranches = [] ∧
    (∃ r, ((s.createAndCheckoutBranch name).2.commit msg).1 = .ok r) ∧
    ((s.createAndCheckoutBranch name).2.commit msg).2.getAllBranches = [name] := by
  have h1 : s.createAndCheckoutBranch name =
      (.ok (), { s with headRef := .symbolic (.head name) }) := by
    unfold GitRepo.createAndCheckoutBranch GitRepo.resolveHead
    rw [hhead, hrefs]
    simp [assocFind]
  refine ⟨by rw [h1], by rw [h1], ?_, ?_, ?_⟩
  · rw [h1]
    simp [GitRepo.getAllBranches, hrefs]
  · rw [h1]
    simp [GitRepo.commit, GitRepo.createSignature, hsig, GitRepo.resolveHead, hrefs,
      assocFind, GitRepo.commitFinish]
  · rw [h1]
    simp [GitRepo.commit, GitRepo.createSignature, hsig, GitRepo.resolveHead, hrefs,
      assocFind, GitRepo.commitFinish, GitRepo.updateHeadTargetRef, setAssoc,
      GitRepo.getAllBranches]

/-- Witness for C7 on a freshly initialized repository. -/
theorem create_and_checkout_branch_unborn_witness :
    ((GitRepo.init true).createAndCheckoutBranch "feature").2.getAllBranches = [] ∧
    (((GitRepo.init true).createAndCheckoutBranch "feature").2.commit "first").2.getAllBranches
      = ["feature"] := by
  have h := create_and_checkout_branch_unborn (GitRepo.init true) "feature" "first"
    (.head "master") rfl rfl rfl
  exact ⟨h.2.2.1, h.2.2.2.2⟩

/-- C6: checkout_branch fails with a branch-not-found error when the
branch is absent; when present it checks out the branch's commit tree
(unless bare) and re-points HEAD; and every failing run leaves the
repository unmodified. -/
theorem checkout_branch_spec (s : GitRepo) (name : String) :
    (assocFind s.refs (.head name) = none →
      (s.checkoutBranch name).1 = .error ("revspec refs/heads/" ++ name ++ " not found") ∧
      (s.checkoutBranch name).2 = s) ∧
    (∀ oid c entries, assocFind s.refs (.head name) = some oid →
      assocFind s.commits oid = some c →
      assocFind s.trees c.tree = some entries →
      (s.checkoutBranch name).1 = .ok () ∧
      (s.checkoutBranch name).2.headRef = .symbolic (.head name) ∧
      (s.bare = false → (s.checkoutBranch name).2.workTree = entries) ∧
      (s.bare = true → (s.checkoutBranch name).2.workTree = s.workTree)) ∧
    (∀ e, (s.checkoutBranch name).1 = .error e → (s.checkoutBranch name).2 = s) := by
  refine ⟨?_, ?_, ?_⟩
  · intro h
    unfold GitRepo.checkoutBranch
    rw [h]
    exact ⟨rfl, rfl⟩
  · intro oid c entries h1 h2 h3
    cases hb : s.bare with
    | true => simp [GitRepo.checkoutBranch, h1, hb]
    | false => simp [GitRepo.checkoutBranch, h1, h2, h3, hb, GitRepo.checkoutEntries]
  · intro e
    unfold GitRepo.checkoutBranch
    cases h1 : assocFind s.refs (.head name) with
    | none => intro _; rfl
    | some oid =>
      cases hb : s.bare with
      | true => simp
      | false =>
        cases h2 : assocFind s.commits oid with
        | none => simp [h2]
        | some c =>
          cases h3 : assocFind s.trees c.tree with
          | none => simp [h2, h3]
          | some entries => simp [h2, h3]

/-- Witness for C6: a successful checkout and a failing one on a
concrete repository. -/
theorem checkout_branch_spec_witness :
    ((exDiverged.checkoutBranch "feature").1 = .ok () ∧
      (exDiverged.checkoutBranch "feature").2.workTree = exTree3) ∧
    ((exDiverged.checkoutBranch "absent").1 =
        .error "revspec refs/heads/absent not found" ∧
      (exDiverged.checkoutBranch "absent").2 = exDiverged) := by
  constructor
  · have h := (checkout_branch_spec exDiverged "feature").2.1 3 exC3 exTree3
      (by decide) (by decide) (by decide)
    exact ⟨h.1, h.2.2.1 (by decide)⟩
  · exact (checkout_branch_spec exDiverged "absent").1 (by decide)

/-- C2 (amended): provided the committer identity is configured, merge
returns "Already up-to-date" and mutates nothing, both when HEAD's
commit equals the target's commit and when the merge base is the target
(target already an ancestor of HEAD).  Without the identity, merge fails
resolving the signature before reaching either no-op case. -/
theorem merge_no_op_up_to_date (s : GitRepo) (bn : String) (msg : Option String)
    (T H : Nat) (tc hc : CommitObj)
    (hsig : s.sigOk = true)
    (hT : assocFind s.refs (.head bn) = some T)
    (htc : assocFind s.commits T = some tc)
    (hH : s.resolveHead = .ok H)
    (hhc : assocFind s.commits H = some hc)
    (hcase : H = T ∨ (H ≠ T ∧ mergeBase s.commits H T = some T)) :
    s.merge bn msg = (.ok "Already up-to-date", s) := by
  unfold GitRepo.merge GitRepo.mergeO
  rcases hcase with heq | ⟨hne, hmb⟩
  · subst heq
    simp [GitRepo.createSignature, hsig, hT, htc, hH, hhc, renderMergeOutcome, Except.map]
  · have hbne : T ≠ H := Ne.symm hne
    simp [GitRepo.createSignature, hsig, hT, htc, hH, hhc, hne, hmb, hbne, renderMergeOutcome, Except.map]

/-- Witness for C2: both no-op cases on concrete repositories. -/
theorem merge_no_op_up_to_date_witness :
    exSame.merge "feature" none = (.ok "Already up-to-date", exSame) ∧
    exAhead.merge "feature" none = (.ok "Already up-to-date", exAhead) := by
  constructor
  · exact merge_no_op_up_to_date exSame "feature" none 2 2 exC2 exC2 rfl rfl rfl rfl rfl
      (Or.inl rfl)
  · exact merge_no_op_up_to_date exAhead "feature" none 3 4 exC3 exC4 rfl rfl rfl rfl rfl
      (Or.inr ⟨by decide, rfl⟩)

/-- C1 (amended): provided the committer identity is configured, when
HEAD resolves to H on branch cb, the target branch resolves to T, H and
T differ and the merge base is H, merge fast-forwards: the current
branch reference is moved to T, T's tree is force-checked-out unless the
repository is bare, no commit is created, and the result message reports
T as the new tip.  Without the identity, merge fails resolving the
signature before the fast-forward. -/
theorem merge_fast_forward (s : GitRepo) (bn cb : String) (msg : Option String)
    (T H : Nat) (tc hc : CommitObj) (te : TreeEntries)
    (hsig : s.sigOk = true)
    (hT : assocFind s.refs (.head bn) = some T)
    (htc : assocFind s.commits T = some tc)
    (hhead : s.headRef = .symbolic (.head cb))
    (hH : assocFind s.refs (.head cb) = some H)
    (hhc : assocFind s.commits H = some hc)
    (hne : H ≠ T)
    (hmb : mergeBase s.commits H T = some H)
    (hte : assocFind s.trees tc.tree = some te) :
    (s.merge bn msg).1 = .ok ("Fast-forward merge: " ++ toString T) ∧
    assocFind (s.merge bn msg).2.refs (.head cb) = some T ∧
    (s.bare = false → (s.merge bn msg).2.workTree = te) ∧
    (s.bare = true → (s.merge bn msg).2.workTree = s.workTree) ∧
    (s.merge bn msg).2.commits = s.commits ∧
    (s.merge bn msg).2.headRef = s.headRef := by
  unfold GitRepo.merge GitRepo.mergeO
  cases hb : s.bare with
  | true =>
    simp [GitRepo.createSignature, hsig, hT, htc, GitRepo.resolveHead, hhead, hH, hhc, hne,
      hmb, GitRepo.getCurrentBranch, GitRepo.getHeadSymbolicTarget, hb, renderMergeOutcome,
      Except.map, assocFind_setAssoc_self]
  | false =>
    simp [GitRepo.createSignature, hsig, hT, htc, GitRepo.resolveHead, hhead, hH, hhc, hne,
      hmb, GitRepo.getCurrentBranch, GitRepo.getHeadSymbolicTarget, hb, hte,
      GitRepo.checkoutEntries, renderMergeOutcome, Except.map, assocFind_setAssoc_self]

/-- Witness for C1 on a concrete fast-forwardable repository. -/
theorem merge_fast_forward_witness :
    (exFF.merge "feature" none).1 = .ok ("Fast-forward merge: " ++ toString 3) ∧
    assocFind (exFF.merge "feature" none).2.refs (.head "master") = some 3 ∧
    (exFF.merge "feature" none).2.workTree = exTree3 ∧
    (exFF.merge "feature" none).2.commits = exFF.commits := by
  have h := merge_fast_forward exFF "feature" "master" none 3 1 exC3 exC1 exTree3
    rfl rfl rfl rfl rfl rfl (by decide) rfl rfl
  exact ⟨h.1, h.2.1, h.2.2.1 rfl, h.2.2.2.2.1⟩

/-- C4: when HEAD and the target have diverged and the three-way merge
conflicts, merge fails with the merge-conflict error, creates no commit,
leaves references and HEAD unchanged, and leaves the conflicted index
and MERGE_HEAD in place for manual resolution. -/
theorem merge_conflict_aborts (s : GitRepo) (bn : String) (msg : Option String)
    (T H B : Nat) (tc hc bc : CommitObj) (tE hE bE : TreeEntries)
    (hw : ParentsLt s.commits)
    (hsig : s.sigOk = true)
    (hT : assocFind s.refs (.head bn) = some T)
    (htc : assocFind s.commits T = some tc)
    (hH : s.resolveHead = .ok H)
    (hhc : assocFind s.commits H = some hc)
    (hne : H ≠ T)
    (hmb : mergeBase s.commits H T = some B)
    (hbh : B ≠ H) (hbt : B ≠ T)
    (hhE : assocFind s.trees hc.tree = some hE)
    (hbc : assocFind s.commits B = some bc)
    (hbE : assocFind s.trees bc.tree = some bE)
    (htE : assocFind s.trees tc.tree = some tE)
    (hconf : (threeWayMerge bE hE tE).conflictPaths ≠ []) :
    (s.merge bn msg).1 =
      .error "Merge conflicts detected. Please resolve conflicts and commit manually." ∧
    (s.merge bn msg).2.commits = s.commits ∧
    (s.merge bn msg).2.refs = s.refs ∧
    (s.merge bn msg).2.headRef = s.headRef ∧
    (s.merge bn msg).2.conflicts = (threeWayMerge bE hE tE).conflictPaths ∧
    (s.merge bn msg).2.mergeHead = some T := by
  have hana : mergeAnalysis s.commits H T = .normal :=
    mergeAnalysis_normal_of_base_ne hw hmb hbh hbt
  unfold GitRepo.merge GitRepo.mergeO
  simp [GitRepo.createSignature, hsig, hT, htc, hH, hhc, hne, hmb, hbh, hbt, hhE, hbc, hbE,
    htE, hana, hconf, Except.map]

/-- Witness for C4 on a concrete conflicting merge. -/
theorem merge_conflict_aborts_witness :
    (exConflict.merge "feature" none).1 =
      .error "Merge conflicts detected. Please resolve conflicts and commit manually." ∧
    (exConflict.merge "feature" none).2.commits = exConflict.commits ∧
    (exConflict.merge "feature" none).2.refs = exConflict.refs ∧
    (exConflict.merge "feature" none).2.conflicts ≠ [] := by
  have h := merge_conflict_aborts exConflict "feature" none 3 2 1 exC3 exC2 exC1
    exTree3c exTree2c exTree1 (by decide) rfl rfl rfl rfl rfl (by decide) rfl
    (by decide) (by decide) rfl rfl rfl rfl (by decide)
  refine ⟨h.1, h.2.1, h.2.2.1, ?_⟩
  rw [h.2.2.2.2.1]
  decide

/-- C3: when HEAD and the target have diverged and the three-way merge
is clean, merge creates exactly one new commit with parent list [H, T]
and the provided or default message, advances HEAD's branch reference to
it, and clears the in-progress merge state. -/
theorem merge_creates_merge_commit (s : GitRepo) (bn cb : String) (msg : Option String)
    (T H B : Nat) (tc hc bc : CommitObj) (tE hE bE : TreeEntries)
    (hw : ParentsLt s.commits)
    (hsig : s.sigOk = true)
    (hT : assocFind s.refs (.head bn) = some T)
    (htc : assocFind s.commits T = some tc)
    (hhead : s.headRef = .symbolic (.head cb))
    (hH : assocFind s.refs (.head cb) = some H)
    (hhc : assocFind s.commits H = some hc)
    (hne : H ≠ T)
    (hmb : mergeBase s.commits H T = some B)
    (hbh : B ≠ H) (hbt : B ≠ T)
    (hhE : assocFind s.trees hc.tree = some hE)
    (hbc : assocFind s.commits B = some bc)
    (hbE : assocFind s.trees bc.tree = some bE)
    (htE : assocFind s.trees tc.tree = some tE)
    (hclean : (threeWayMerge bE hE tE).conflictPaths = []) :
    ∃ N, (s.merge bn msg).1 = .ok ("Merge commit created: " ++ toString N) ∧
      (∃ trOid tm, (s.merge bn msg).2.commits =
        (N, ⟨[H, T], trOid, msg.getD ("Merge branch \x27" ++ bn ++ "\x27"), tm⟩) :: s.commits) ∧
      assocFind (s.merge bn msg).2.refs (.head cb) = some N ∧
      (s.merge bn msg).2.headRef = s.headRef ∧
      (s.merge bn msg).2.mergeHead = none := by
  have hana : mergeAnalysis s.commits H T = .normal :=
    mergeAnalysis_normal_of_base_ne hw hmb hbh hbt
  unfold GitRepo.merge GitRepo.mergeO
  simp only [GitRepo.createSignature, hsig, if_true, hT, htc, GitRepo.resolveHead, hhead, hH,
    hhc, hne, if_false, hmb, hbh, hbt, hhE, hbc, hbE, htE, hana, hclean,
    GitRepo.getCurrentBranch, GitRepo.getHeadSymbolicTarget, GitRepo.updateHeadTargetRef,
    List.isEmpty_nil, if_true, Except.map]
  exact ⟨_, rfl, ⟨_, _, rfl⟩, assocFind_setAssoc_self _ _ _, trivial, trivial⟩

/-- Witness for C3 on a concrete cleanly-merging divergence. -/
theorem merge_creates_merge_commit_witness :
    ∃ N, (exDiverged.merge "feature" none).1 = .ok ("Merge commit created: " ++ toString N) ∧
      (∃ trOid tm, (exDiverged.merge "feature" none).2.commits =
        (N, ⟨[2, 3], trOid, "Merge branch \x27feature\x27", tm⟩) :: exDiverged.commits) ∧
      assocFind (exDiverged.merge "feature" none).2.refs (.head "master") = some N ∧
      (exDiverged.merge "feature" none).2.headRef = exDiverged.headRef ∧
      (exDiverged.merge "feature" none).2.mergeHead = none :=
  merge_creates_merge_commit exDiverged "feature" "master" none 3 2 1 exC3 exC2 exC1
    exTree3 exTree2 exTree1 (by decide) rfl rfl rfl rfl rfl rfl (by decide) rfl (by decide)
    (by decide) rfl rfl rfl rfl rfl

theorem freshOid_pos (s : GitRepo) : 0 < freshOid s :=
  Nat.succ_pos _

theorem lt_freshOid_of_commit {s : GitRepo} {k : Nat} {c : CommitObj}
    (h : assocFind s.commits k = some c) : k < freshOid s :=
  lt_freshOid (by
    unfold usedOids
    exact List.mem_append_left _ (List.mem_map_of_mem Prod.fst (assocFind_mem h)))

/-- Exhaustive description of the successful runs of mergeO under the
store invariant: up to date (references and commits untouched, target
already reachable from HEAD), fast-forward (current branch reference
moved to the target, no new commit), or a fresh two-parent merge commit
advancing the current branch reference. -/
theorem mergeO_ok_cases (s : GitRepo) (bn cb : String) (msg : Option String)
    (T H : Nat) (r : MergeOutcome) (s' : GitRepo)
    (hw : ParentsLt s.commits)
    (hT : assocFind s.refs (.head bn) = some T)
    (hhead : s.headRef = .symbolic (.head cb))
    (hH : assocFind s.refs (.head cb) = some H)
    (hr : s.mergeO bn msg = (.ok r, s')) :
    (r = .upToDate ∧ s'.commits = s.commits ∧ s'.refs = s.refs ∧
      T ∈ ancestors s.commits H) ∨
    (r = .fastForward T ∧ s'.commits = s.commits ∧
      s'.refs = setAssoc s.refs (.head cb) T) ∨
    (∃ N c, r = .mergeCommitCreated N ∧
      s'.commits = (N, c) :: s.commits ∧ c.parents = [H, T] ∧
      s'.refs = setAssoc s.refs (.head cb) N ∧
      0 < N ∧ H < N ∧ T < N) := by
  have hrh : s.resolveHead = .ok H := by
    simp [GitRepo.resolveHead, hhead, hH]
  have hgc : s.getCurrentBranch = .ok cb := by
    simp [GitRepo.getCurrentBranch, GitRepo.getHeadSymbolicTarget, hhead]
  cases hsg : s.createSignature with
  | error e =>
    unfold GitRepo.mergeO at hr
    simp only [hsg] at hr
    simp [Prod.mk.injEq] at hr
  | ok u =>
  cases htc : assocFind s.commits T with
  | none =>
    unfold GitRepo.mergeO at hr
    simp only [hsg, hT, htc] at hr
    simp [Prod.mk.injEq] at hr
  | some tc =>
  cases hhc : assocFind s.commits H with
  | none =>
    unfold GitRepo.mergeO at hr
    simp only [hsg, hT, htc, hrh, hhc] at hr
    simp [Prod.mk.injEq] at hr
  | some hc =>
  by_cases hHT : H = T
  · -- HEAD equals the target: up to date, no mutation
    have hval : s.mergeO bn msg = (.ok .upToDate, s) := by
      unfold GitRepo.mergeO
      simp [hsg, hT, htc, hrh, hhc, hHT]
    rw [hval] at hr
    simp only [Prod.mk.injEq, Except.ok.injEq] at hr
    left
    refine ⟨hr.1.symm, by rw [← hr.2], by rw [← hr.2], ?_⟩
    rw [hHT]
    exact mem_ancestors_self _ T
  · have hTH : ¬T = H := fun hh => hHT hh.symm
    cases hmb : mergeBase s.commits H T with
    | none =>
      unfold GitRepo.mergeO at hr
      simp only [hsg, hT, htc, hrh, hhc, hHT, hmb] at hr
      simp [Prod.mk.injEq] at hr
    | some base =>
    by_cases hbH : base = H
    · -- fast-forward
      cases hb : s.bare with
      | true =>
        have hval : s.mergeO bn msg =
            (.ok (.fastForward T), { s with refs := setAssoc s.refs (.head cb) T }) := by
          unfold GitRepo.mergeO
          simp [hsg, hT, htc, hrh, hhc, hHT, hmb, hbH, hgc, hb]
        rw [hval] at hr
        simp only [Prod.mk.injEq, Except.ok.injEq] at hr
        right; left
        exact ⟨hr.1.symm, by rw [← hr.2], by rw [← hr.2]⟩
      | false =>
        cases hte : assocFind s.trees tc.tree with
        | none =>
          have hval : s.mergeO bn msg =
              (.error "Failed to get target tree",
               { s with refs := setAssoc s.refs (.head cb) T }) := by
            unfold GitRepo.mergeO
            simp [hsg, hT, htc, hrh, hhc, hHT, hmb, hbH, hgc, hb, hte]
          rw [hval] at hr
          simp [Prod.mk.injEq] at hr
        | some te =>
          have hval : s.mergeO bn msg =
              (.ok (.fastForward T),
               { s with
                 refs := setAssoc s.refs (.head cb) T,
                 workTree := te, index := te, conflicts := [] }) := by
            unfold GitRepo.mergeO
            simp [hsg, hT, htc, hrh, hhc, hHT, hmb, hbH, hgc, hb, hte,
              GitRepo.checkoutEntries]
          rw [hval] at hr
          simp only [Prod.mk.injEq, Except.ok.injEq] at hr
          right; left
          exact ⟨hr.1.symm, by rw [← hr.2], by rw [← hr.2]⟩
    · by_cases hbT : base = T
      · -- the target is already an ancestor of HEAD: up to date
        have hval : s.mergeO bn msg = (.ok .upToDate, s) := by
          unfold GitRepo.mergeO
          simp [hsg, hT, htc, hrh, hhc, hHT, hTH, hmb, hbH, hbT]
        rw [hval] at hr
        simp only [Prod.mk.injEq, Except.ok.injEq] at hr
        left
        refine ⟨hr.1.symm, by rw [← hr.2], by rw [← hr.2], ?_⟩
        have hbt2 : mergeBase s.commits H T = some T := by rw [hmb, hbT]
        exact (mergeBase_eq_right_iff hw).mp hbt2
      · -- genuine three-way merge
        have hana : mergeAnalysis s.commits H T = .normal :=
          mergeAnalysis_normal_of_base_ne hw hmb hbH hbT
        cases hhE : assocFind s.trees hc.tree with
        | none =>
          unfold GitRepo.mergeO at hr
          simp only [hsg, hT, htc, hrh, hhc, hHT, hmb, hbH, hbT, hhE] at hr
          simp [Prod.mk.injEq, hHT, hbH, hbT] at hr
        | some hE =>
        cases hbc : assocFind s.commits base with
        | none =>
          unfold GitRepo.mergeO at hr
          simp only [hsg, hT, htc, hrh, hhc, hHT, hmb, hbH, hbT, hhE, hana, hbc] at hr
          simp [Prod.mk.injEq, hHT, hbH, hbT] at hr
        | some bc =>
        cases hbE : assocFind s.trees bc.tree with
        | none =>
          unfold GitRepo.mergeO at hr
          simp only [hsg, hT, htc, hrh, hhc, hHT, hmb, hbH, hbT, hhE, hana, hbc, hbE] at hr
          simp [Prod.mk.injEq, hHT, hbH, hbT] at hr
        | some bE =>
        cases htE : assocFind s.trees tc.tree with
        | none =>
          unfold GitRepo.mergeO at hr
          simp only [hsg, hT, htc, hrh, hhc, hHT, hmb, hbH, hbT, hhE, hana, hbc, hbE,
            htE] at hr
          simp [Prod.mk.injEq, hHT, hbH, hbT] at hr
        | some tE =>
        cases hcp : (threeWayMerge bE hE tE).conflictPaths.isEmpty with
        | false =>
          unfold GitRepo.mergeO at hr
          simp only [hsg, hT, htc, hrh, hhc, hHT, hmb, hbH, hbT, hhE, hana, hbc, hbE, htE,
            hcp] at hr
          simp [Prod.mk.injEq, hHT, hbH, hbT] at hr
        | true =>
          unfold GitRepo.mergeO at hr
          simp only [hsg, hT, htc, hrh, hhc, hHT, hTH, hbH, hbT, hmb, hhE, hana, hbc, hbE,
            htE, hcp, GitRepo.updateHeadTargetRef, hhead, eq_self_iff_true, if_true,
            if_false] at hr
          simp only [Prod.mk.injEq, Except.ok.injEq] at hr
          right; right
          refine ⟨_, _, hr.1.symm, by rw [← hr.2], rfl, by rw [← hr.2], ?_, ?_, ?_⟩
          · exact freshOid_pos _
          · exact lt_freshOid_of_commit hhc
          · exact lt_freshOid_of_commit htc

theorem parentsLt_cons {cs : List (Nat × CommitObj)} {N : Nat} {c : CommitObj}
    (hw : ParentsLt cs) (hp : ∀ p ∈ c.parents, p < N) : ParentsLt ((N, c) :: cs) := by
  intro e he p hpe
  rcases List.mem_cons.mp he with he | he
  · rw [he]
    rw [he] at hpe
    exact hp p hpe
  · exact hw e he p hpe

theorem mem_ancestors_of_parent {cs : List (Nat × CommitObj)} (hw : ParentsLt cs)
    {d p : Nat} (hp : p ∈ childParents cs d) : p ∈ ancestors cs d :=
  (mem_ancestors_iff_reach hw).mpr (reach_of_parent hp)

/-- C9: is_branch_merged_to_main returns true exactly when the merge
base of the branch tip and the mainline (refs/heads/main first, then
refs/heads/master) is the branch tip; it fails when neither mainline
branch exists; it is false while the branch has a commit that the
mainline cannot reach, and true immediately after the branch is
successfully merged into main. -/
theorem is_branch_merged_to_main_spec (s : GitRepo) (bn : String) :
    (∀ B M mb, ParentsLt s.commits →
      assocFind s.refs (.head bn) = some B →
      (assocFind s.refs (.head "main") = some M ∨
        (assocFind s.refs (.head "main") = none ∧
         assocFind s.refs (.head "master") = some M)) →
      mergeBase s.commits B M = some mb →
      ((s.isBranchMergedToMain bn = .ok true ↔ mergeBase s.commits B M = some B) ∧
       ((∃ c, c ∈ ancestors s.commits B ∧ c ∉ ancestors s.commits M) →
         s.isBranchMergedToMain bn = .ok false))) ∧
    (∀ B, assocFind s.refs (.head bn) = some B →
      assocFind s.refs (.head "main") = none →
      assocFind s.refs (.head "master") = none →
      s.isBranchMergedToMain bn = .error "Failed to find main/master branch") ∧
    (∀ msg r s' T H, ParentsLt s.commits →
      s.headRef = .symbolic (.head "main") →
      assocFind s.refs (.head "main") = some H →
      assocFind s.refs (.head bn) = some T →
      bn ≠ "main" →
      s.mergeO bn msg = (.ok r, s') →
      s'.isBranchMergedToMain bn = .ok true) := by
  refine ⟨?_, ?_, ?_⟩
  · intro B M mb hw hB hM hmb
    have hval : s.isBranchMergedToMain bn = .ok (mb == B) := by
      unfold GitRepo.isBranchMergedToMain GitRepo.mergedCheck
      rcases hM with hM | ⟨hM0, hM⟩
      · simp [hB, hM, hmb]
      · simp [hB, hM0, hM, hmb]
    constructor
    · rw [hval]
      constructor
      · intro hh
        simp only [Except.ok.injEq, beq_iff_eq] at hh
        rw [hmb, hh]
      · intro hh
        rw [hmb] at hh
        simp only [Option.some_inj] at hh
        simp [hh]
    · rintro ⟨c, hcB, hcM⟩
      rw [hval]
      have hne : mb ≠ B := by
        intro hh
        rw [hh] at hmb
        have hBM : B ∈ ancestors s.commits M := (mergeBase_eq_left_iff hw).mp hmb
        exact hcM (mem_ancestors_trans hw hBM hcB)
      simp [hne]
  · intro B hB hM0 hM1
    unfold GitRepo.isBranchMergedToMain
    simp [hB, hM0, hM1]
  · intro msg r s' T H hw hhead hH hT hbn hmerge
    have hbnr : RefName.head bn ≠ RefName.head "main" := by
      simp [hbn]
    rcases mergeO_ok_cases s bn "main" msg T H r s' hw hT hhead hH hmerge with
      ⟨_, hcom, hrefs, hTanc⟩ | ⟨_, hcom, hrefs⟩ | ⟨N, c, _, hcom, hpar, hrefs, hN0, hHN, hTN⟩
    · -- up to date: the branch tip is already reachable from main
      have hmbTH : mergeBase s.commits T H = some T := (mergeBase_eq_left_iff hw).mpr hTanc
      unfold GitRepo.isBranchMergedToMain GitRepo.mergedCheck
      rw [hrefs, hcom]
      simp [hT, hH, hmbTH]
    · -- fast-forward: main now points at the branch tip
      unfold GitRepo.isBranchMergedToMain GitRepo.mergedCheck
      rw [hrefs, hcom]
      rw [assocFind_setAssoc_ne _ _ hbnr, hT]
      rw [assocFind_setAssoc_self]
      simp [mergeBase_self hw T]
    · -- merge commit: the branch tip is a parent of the new main tip
      have hw' : ParentsLt s'.commits := by
        rw [hcom]
        refine parentsLt_cons hw ?_
        rw [hpar]
        intro p hp
        rcases List.mem_cons.mp hp with hp | hp
        · rw [hp]; exact hHN
        · simp at hp; rw [hp]; exact hTN
      have hfind : assocFind s'.commits N = some c := by
        rw [hcom]
        simp [assocFind]
      have hTanc : T ∈ ancestors s'.commits N := by
        apply mem_ancestors_of_parent hw'
        unfold childParents
        rw [hfind]
        simp [hpar]
      have hmbTN : mergeBase s'.commits T N = some T := (mergeBase_eq_left_iff hw').mpr hTanc
      unfold GitRepo.isBranchMergedToMain GitRepo.mergedCheck
      rw [hrefs]
      rw [assocFind_setAssoc_ne _ _ hbnr, hT]
      rw [assocFind_setAssoc_self]
      simp [hmbTN]

/-- Witness for C9: false before the merge, true after it, on concrete
repositories. -/
theorem is_branch_merged_to_main_spec_witness :
    exMain.isBranchMergedToMain "feature" = .ok false ∧
    (exMain.mergeO "feature" none).2.isBranchMergedToMain "feature" = .ok true := by
  constructor
  · exact ((is_branch_merged_to_main_spec exMain "feature").1 3 2 1 (by decide) rfl
      (Or.inl rfl) rfl).2 ⟨3, by decide, by decide⟩
  · exact (is_branch_merged_to_main_spec exMain "feature").2.2 none
      (.mergeCommitCreated 15) (exMain.mergeO "feature" none).2 3 2
      (by decide) rfl rfl rfl (by decide) rfl

/-- C5 (amended): pull is the composition of fetch with the merge-phase
decision procedure, and — provided the committer identity is configured —
that phase reaches exactly the same decision as merge on the same pair of
commits (the same MergeOutcome on success, an error in exactly the same
cases), with the resulting states equal once commit messages are erased;
only result wording and the merge-commit message differ. -/
theorem pull_is_fetch_then_merge_phase (s : GitRepo) (rn tb : String) :
    (∀ fmsg s1, s.fetch rn (some tb) = (.ok fmsg, s1) →
      s.pull rn (some tb) =
        ((s1.pullMergePhase rn tb).1.map renderPullOutcome, (s1.pullMergePhase rn tb).2)) ∧
    (∀ T, ParentsLt s.commits → s.sigOk = true →
      assocFind s.refs (.head tb) = some T →
      assocFind s.refs (.remote rn tb) = some T →
      ((∃ o, (s.pullMergePhase rn tb).1 = .ok o ∧ (s.mergeO tb none).1 = .ok o) ∨
       (∃ e1 e2, (s.pullMergePhase rn tb).1 = .error e1 ∧
         (s.mergeO tb none).1 = .error e2)) ∧
      eraseMessages (s.pullMergePhase rn tb).2 = eraseMessages (s.mergeO tb none).2) := by
  constructor
  · intro fmsg s1 hfetch
    simp [GitRepo.pull, hfetch]
  · intro T hw hsig hloc hrem
    have hsg : s.createSignature = .ok () := by
      simp [GitRepo.createSignature, hsig]
    cases htc : assocFind s.commits T with
    | none =>
      have hP : s.pullMergePhase rn tb = (.error "Failed to get remote commit", s) := by
        unfold GitRepo.pullMergePhase
        simp [hrem, htc]
      have hM : s.mergeO tb none = (.error "Failed to get target commit", s) := by
        unfold GitRepo.mergeO
        simp [hsg, hloc, htc]
      rw [hP, hM]
      exact ⟨Or.inr ⟨_, _, rfl, rfl⟩, rfl⟩
    | some tc =>
    cases hrh : s.resolveHead with
    | error e =>
      have hP : s.pullMergePhase rn tb = (.error "Failed to get HEAD", s) := by
        unfold GitRepo.pullMergePhase
        simp [hrem, htc, hrh]
      have hM : s.mergeO tb none = (.error "Failed to get HEAD", s) := by
        unfold GitRepo.mergeO
        simp [hsg, hloc, htc, hrh]
      rw [hP, hM]
      exact ⟨Or.inr ⟨_, _, rfl, rfl⟩, rfl⟩
    | ok H =>
    cases hhc : assocFind s.commits H with
    | none =>
      have hP : s.pullMergePhase rn tb = (.error "Failed to get current commit", s) := by
        unfold GitRepo.pullMergePhase
        simp [hrem, htc, hrh, hhc]
      have hM : s.mergeO tb none = (.error "Failed to get current commit", s) := by
        unfold GitRepo.mergeO
        simp [hsg, hloc, htc, hrh, hhc]
      rw [hP, hM]
      exact ⟨Or.inr ⟨_, _, rfl, rfl⟩, rfl⟩
    | some hc =>
    by_cases hHT : H = T
    · have hP : s.pullMergePhase rn tb = (.ok .upToDate, s) := by
        unfold GitRepo.pullMergePhase
        simp [hrem, htc, hrh, hhc, hHT]
      have hM : s.mergeO tb none = (.ok .upToDate, s) := by
        unfold GitRepo.mergeO
        simp [hsg, hloc, htc, hrh, hhc, hHT]
      rw [hP, hM]
      exact ⟨Or.inl ⟨_, rfl, rfl⟩, rfl⟩
    · have hTH : ¬T = H := fun hh => hHT hh.symm
      cases hmb : mergeBase s.commits H T with
      | none =>
        have hP : s.pullMergePhase rn tb = (.error "Failed to find merge base", s) := by
          unfold GitRepo.pullMergePhase
          simp [hrem, htc, hrh, hhc, hHT, hmb]
        have hM : s.mergeO tb none = (.error "Failed to find merge base", s) := by
          unfold GitRepo.mergeO
          simp [hsg, hloc, htc, hrh, hhc, hHT, hmb]
        rw [hP, hM]
        exact ⟨Or.inr ⟨_, _, rfl, rfl⟩, rfl⟩
      | some base =>
      by_cases hbH : base = H
      · -- both fast-forward
        cases hgc : s.getCurrentBranch with
        | error e =>
          have hP : s.pullMergePhase rn tb = (.error "Failed to get current branch", s) := by
            unfold GitRepo.pullMergePhase
            simp [hrem, htc, hrh, hhc, hHT, hmb, hbH, hgc]
          have hM : s.mergeO tb none = (.error "Failed to get current branch", s) := by
            unfold GitRepo.mergeO
            simp [hsg, hloc, htc, hrh, hhc, hHT, hmb, hbH, hgc]
          rw [hP, hM]
          exact ⟨Or.inr ⟨_, _, rfl, rfl⟩, rfl⟩
        | ok cur =>
        cases hb : s.bare with
        | true =>
          have hP : s.pullMergePhase rn tb =
              (.ok (.fastForward T), { s with refs := setAssoc s.refs (.head cur) T }) := by
            unfold GitRepo.pullMergePhase
            simp [hrem, htc, hrh, hhc, hHT, hmb, hbH, hgc, hb]
          have hM : s.mergeO tb none =
              (.ok (.fastForward T), { s with refs := setAssoc s.refs (.head cur) T }) := by
            unfold GitRepo.mergeO
            simp [hsg, hloc, htc, hrh, hhc, hHT, hmb, hbH, hgc, hb]
          rw [hP, hM]
          exact ⟨Or.inl ⟨_, rfl, rfl⟩, rfl⟩
        | false =>
          cases hte : assocFind s.trees tc.tree with
          | none =>
            have hP : s.pullMergePhase rn tb =
                (.error "Failed to get remote tree",
                 { s with refs := setAssoc s.refs (.head cur) T }) := by
              unfold GitRepo.pullMergePhase
              simp [hrem, htc, hrh, hhc, hHT, hmb, hbH, hgc, hb, hte]
            have hM : s.mergeO tb none =
                (.error "Failed to get target tree",
                 { s with refs := setAssoc s.refs (.head cur) T }) := by
              unfold GitRepo.mergeO
              simp [hsg, hloc, htc, hrh, hhc, hHT, hmb, hbH, hgc, hb, hte]
            rw [hP, hM]
            exact ⟨Or.inr ⟨_, _, rfl, rfl⟩, rfl⟩
          | some te =>
            have hP : s.pullMergePhase rn tb =
                (.ok (.fastForward T),
                 { s with
                   refs := setAssoc s.refs (.head cur) T,
                   workTree := te, index := te, conflicts := [] }) := by
              unfold GitRepo.pullMergePhase
              simp [hrem, htc, hrh, hhc, hHT, hmb, hbH, hgc, hb, hte, GitRepo.checkoutEntries]
            have hM : s.mergeO tb none =
                (.ok (.fastForward T),
                 { s with
                   refs := setAssoc s.refs (.head cur) T,
                   workTree := te, index := te, conflicts := [] }) := by
              unfold GitRepo.mergeO
              simp [hsg, hloc, htc, hrh, hhc, hHT, hmb, hbH, hgc, hb, hte, GitRepo.checkoutEntries]
            rw [hP, hM]
            exact ⟨Or.inl ⟨_, rfl, rfl⟩, rfl⟩
      · by_cases hbT : base = T
        · have hP : s.pullMergePhase rn tb = (.ok .upToDate, s) := by
            unfold GitRepo.pullMergePhase
            simp [hrem, htc, hrh, hhc, hHT, hTH, hmb, hbH, hbT]
          have hM : s.mergeO tb none = (.ok .upToDate, s) := by
            unfold GitRepo.mergeO
            simp [hsg, hloc, htc, hrh, hhc, hHT, hTH, hmb, hbH, hbT]
          rw [hP, hM]
          exact ⟨Or.inl ⟨_, rfl, rfl⟩, rfl⟩
        · -- genuine three-way merge in both
          have hana : mergeAnalysis s.commits H T = .normal :=
            mergeAnalysis_normal_of_base_ne hw hmb hbH hbT
          cases hhE : assocFind s.trees hc.tree with
          | none =>
            have hP : s.pullMergePhase rn tb = (.error "Failed to get HEAD tree", s) := by
              unfold GitRepo.pullMergePhase
              simp [hrem, htc, hrh, hhc, hHT, hmb, hbH, hbT, hsg, hhE]
            have hM : s.mergeO tb none = (.error "Failed to get HEAD tree", s) := by
              unfold GitRepo.mergeO
              simp [hsg, hloc, htc, hrh, hhc, hHT, hmb, hbH, hbT, hhE]
            rw [hP, hM]
            exact ⟨Or.inr ⟨_, _, rfl, rfl⟩, rfl⟩
          | some hE =>
          cases hbc : assocFind s.commits base with
          | none =>
            have hP : s.pullMergePhase rn tb =
                (.error "Failed to perform merge",
                 { s with index := hE, conflicts := [] }) := by
              unfold GitRepo.pullMergePhase
              simp [hrem, htc, hrh, hhc, hHT, hmb, hbH, hbT, hsg, hhE, hana, hbc]
            have hM : s.mergeO tb none =
                (.error "Failed to perform merge",
                 { s with index := hE, conflicts := [] }) := by
              unfold GitRepo.mergeO
              simp [hsg, hloc, htc, hrh, hhc, hHT, hmb, hbH, hbT, hhE, hana, hbc]
            rw [hP, hM]
            exact ⟨Or.inr ⟨_, _, rfl, rfl⟩, rfl⟩
          | some bc =>
          cases hbE : assocFind s.trees bc.tree with
          | none =>
            have hP : s.pullMergePhase rn tb =
                (.error "Failed to perform merge",
                 { s with index := hE, conflicts := [] }) := by
              unfold GitRepo.pullMergePhase
              simp [hrem, htc, hrh, hhc, hHT, hmb, hbH, hbT, hsg, hhE, hana, hbc, hbE]
            have hM : s.mergeO tb none =
                (.error "Failed to perform merge",
                 { s with index := hE, conflicts := [] }) := by
              unfold GitRepo.mergeO
              simp [hsg, hloc, htc, hrh, hhc, hHT, hmb, hbH, hbT, hhE, hana, hbc, hbE]
            rw [hP, hM]
            exact ⟨Or.inr ⟨_, _, rfl, rfl⟩, rfl⟩
          | some bE =>
          cases htE : assocFind s.trees tc.tree with
          | none =>
            have hP : s.pullMergePhase rn tb =
                (.error "Failed to perform merge",
                 { s with index := hE, conflicts := [] }) := by
              unfold GitRepo.pullMergePhase
              simp [hrem, htc, hrh, hhc, hHT, hmb, hbH, hbT, hsg, hhE, hana, hbc, hbE, htE]
            have hM : s.mergeO tb none =
                (.error "Failed to perform merge",
                 { s with index := hE, conflicts := [] }) := by
              unfold GitRepo.mergeO
              simp [hsg, hloc, htc, hrh, hhc, hHT, hmb, hbH, hbT, hhE, hana, hbc, hbE, htE]
            rw [hP, hM]
            exact ⟨Or.inr ⟨_, _, rfl, rfl⟩, rfl⟩
          | some tE =>
          cases hcp : (threeWayMerge bE hE tE).conflictPaths.isEmpty with
          | false =>
            have hP : s.pullMergePhase rn tb =
                (.error "Merge conflicts detected during pull. Please resolve conflicts and commit manually.",
                 { s with
                   index := (threeWayMerge bE hE tE).entries,
                   conflicts := (threeWayMerge bE hE tE).conflictPaths,
                   workTree := if s.bare then s.workTree else (threeWayMerge bE hE tE).entries,
                   mergeHead := some T }) := by
              unfold GitRepo.pullMergePhase
              simp [hrem, htc, hrh, hhc, hHT, hmb, hbH, hbT, hsg, hhE, hana, hbc, hbE, htE, hcp]
            have hM : s.mergeO tb none =
                (.error "Merge conflicts detected. Please resolve conflicts and commit manually.",
                 { s with
                   index := (threeWayMerge bE hE tE).entries,
                   conflicts := (threeWayMerge bE hE tE).conflictPaths,
                   workTree := if s.bare then s.workTree else (threeWayMerge bE hE tE).entries,
                   mergeHead := some T }) := by
              unfold GitRepo.mergeO
              simp [hsg, hloc, htc, hrh, hhc, hHT, hmb, hbH, hbT, hhE, hana, hbc, hbE, htE, hcp]
            rw [hP, hM]
            exact ⟨Or.inr ⟨_, _, rfl, rfl⟩, rfl⟩
          | true =>
            constructor
            · left
              unfold GitRepo.pullMergePhase GitRepo.mergeO
              simp only [hrem, hloc, hsg, htc, hrh, hhc, hHT, hTH, hbH, hbT, hmb, hhE, hana,
                hbc, hbE, htE, hcp, eq_self_iff_true, if_true, if_false]
              exact ⟨_, rfl, rfl⟩
            · unfold GitRepo.pullMergePhase GitRepo.mergeO
              simp only [hrem, hloc, hsg, htc, hrh, hhc, hHT, hTH, hbH, hbT, hmb, hhE, hana,
                hbc, hbE, htE, hcp, eq_self_iff_true, if_true, if_false,
                GitRepo.updateHeadTargetRef]
              cases hhr : s.headRef with
              | symbolic t => simp [eraseMessages]
              | detached oid => simp [eraseMessages]

/-- Counterexample to C5 as stated: with no committer identity
configured, pull on a repository already at its remote-tracking commit
reports up to date, while merge on the same pair of commits fails
upfront resolving the signature — the outcomes differ beyond wording. -/
theorem pull_merge_outcome_divergence_counterexample :
    (exPullNoSig.pull "origin" (some "master")).1 = .ok "Already up-to-date" ∧
    (exPullNoSig.merge "master" none).1 = .error "Failed to create signature" ∧
    (exPullNoSig.pull "origin" (some "master")).1 ≠
      (exPullNoSig.merge "master" none).1 := by
  have h1 : (exPullNoSig.pull "origin" (some "master")).1 = .ok "Already up-to-date" := rfl
  have h2 : (exPullNoSig.merge "master" none).1 = .error "Failed to create signature" := rfl
  refine ⟨h1, h2, ?_⟩
  rw [h1, h2]
  intro hh
  exact Except.noConfusion hh

/-- Witness for the amended C5 on a repository whose branch and
remote-tracking reference share a commit. -/
theorem pull_is_fetch_then_merge_phase_witness :
    ((∃ o, (exPullBoth.pullMergePhase "origin" "feature").1 = .ok o ∧
        (exPullBoth.mergeO "feature" none).1 = .ok o) ∨
     (∃ e1 e2, (exPullBoth.pullMergePhase "origin" "feature").1 = .error e1 ∧
        (exPullBoth.mergeO "feature" none).1 = .error e2)) ∧
    eraseMessages (exPullBoth.pullMergePhase "origin" "feature").2 =
      eraseMessages (exPullBoth.mergeO "feature" none).2 :=
  (pull_is_fetch_then_merge_phase exPullBoth "origin" "feature").2 3 (by decide) rfl rfl rfl

theorem maxTimeElem_mem (cs : List (Nat × CommitObj)) :
    ∀ {l : List Nat} {m : Nat}, maxTimeElem cs l = some m → m ∈ l := by
  intro l
  induction l with
  | nil => intro m h; simp [maxTimeElem] at h
  | cons x t ih =>
    intro m h
    simp only [maxTimeElem] at h
    cases ht : maxTimeElem cs t with
    | none =>
      rw [ht] at h
      simp at h
      simp [h]
    | some m' =>
      rw [ht] at h
      simp at h
      by_cases hgt : timeOf cs m' > timeOf cs x
      · rw [if_pos hgt] at h
        simp at h
        exact List.mem_cons_of_mem _ (ih (by rw [ht, h]))
      · rw [if_neg hgt] at h
        simp at h
        simp [h]

theorem maxTimeElem_isSome (cs : List (Nat × CommitObj)) {l : List Nat} (h : l ≠ []) :
    (maxTimeElem cs l).isSome := by
  cases l with
  | nil => simp at h
  | cons x t =>
    simp only [maxTimeElem]
    cases maxTimeElem cs t with
    | none => simp
    | some m' => by_cases hgt : timeOf cs m' > timeOf cs x <;> simp [hgt]

theorem maxTimeElem_time_ge (cs : List (Nat × CommitObj)) :
    ∀ {l : List Nat} {m : Nat}, maxTimeElem cs l = some m →
      ∀ x ∈ l, timeOf cs x ≤ timeOf cs m := by
  intro l
  induction l with
  | nil => intro m _ x hx; simp at hx
  | cons y t ih =>
    intro m h x hx
    simp only [maxTimeElem] at h
    cases ht : maxTimeElem cs t with
    | none =>
      rw [ht] at h
      simp at h
      have hte : t = [] := by
        cases t with
        | nil => rfl
        | cons z t' =>
          have := maxTimeElem_isSome cs (l := z :: t') (by simp)
          rw [ht] at this
          simp at this
      rw [hte] at hx
      simp at hx
      rw [hx, h]
    | some m' =>
      rw [ht] at h
      simp at h
      rcases List.mem_cons.mp hx with hx | hx
      · by_cases hgt : timeOf cs m' > timeOf cs y
        · rw [if_pos hgt] at h
          simp at h
          rw [hx, ← h]
          omega
        · rw [if_neg hgt] at h
          simp at h
          rw [hx, ← h]
      · have hxm' : timeOf cs x ≤ timeOf cs m' := ih ht x hx
        by_cases hgt : timeOf cs m' > timeOf cs y
        · rw [if_pos hgt] at h
          simp at h
          rw [← h]
          omega
        · rw [if_neg hgt] at h
          simp at h
          rw [← h]
          omega

theorem readyIn_iff {cs : List (Nat × CommitObj)} {pending : List Nat} {c : Nat} :
    readyIn cs pending c = true ↔ ∀ d ∈ pending, d = c ∨ c ∉ ancestors cs d := by
  unfold readyIn
  rw [List.all_eq_true]
  constructor
  · intro hh d hd
    have := hh d hd
    simp at this
    rcases this with h1 | h1
    · exact Or.inl h1
    · right
      intro hmem
      exact h1 hmem
  · intro hh d hd
    rcases hh d hd with h1 | h1
    · simp [h1]
    · simp [List.elem_iff, h1]

theorem readyIn_perm {cs : List (Nat × CommitObj)} {p p' : List Nat} {c : Nat}
    (h : p.Perm p') : readyIn cs p c = readyIn cs p' c := by
  cases hr : readyIn cs p' c with
  | true =>
    rw [readyIn_iff] at hr ⊢
    intro d hd
    exact hr d (h.mem_iff.mp hd)
  | false =>
    cases hl : readyIn cs p c with
    | false => rfl
    | true =>
      rw [readyIn_iff] at hl
      have : readyIn cs p' c = true := by
        rw [readyIn_iff]
        intro d hd
        exact hl d (h.mem_iff.mpr hd)
      rw [this] at hr
      exact hr

theorem ready_filter_ne_nil {cs : List (Nat × CommitObj)} (hw : ParentsLt cs)
    {pending : List Nat} (h : pending ≠ []) :
    pending.filter (fun c => readyIn cs pending c) ≠ [] := by
  have hmax : ∃ m, maxOfList pending = some m := by
    cases pending with
    | nil => simp at h
    | cons x t =>
      have := maxOfList_isSome_of_mem (List.mem_cons_self x t)
      exact Option.isSome_iff_exists.mp this
  obtain ⟨m, hm⟩ := hmax
  have hmem : m ∈ pending := maxOfList_mem hm
  have hready : readyIn cs pending m = true := by
    rw [readyIn_iff]
    intro d hd
    by_cases hdm : d = m
    · exact Or.inl hdm
    · right
      intro hanc
      have h1 : m ≤ d := le_of_mem_ancestors hw hanc
      have h2 : d ≤ m := le_maxOfList hm hd
      exact hdm (by omega)
  intro hnil
  have : m ∈ pending.filter (fun c => readyIn cs pending c) :=
    List.mem_filter.mpr ⟨hmem, hready⟩
  rw [hnil] at this
  simp at this

theorem walkAux_perm {cs : List (Nat × CommitObj)} (hw : ParentsLt cs) :
    ∀ (fuel : Nat) (pending : List Nat), pending.Nodup → pending.length ≤ fuel →
      (walkAux cs fuel pending).Perm pending := by
  intro fuel
  induction fuel with
  | zero =>
    intro pending _ hlen
    have hpe : pending = [] := List.length_eq_zero.mp (by omega)
    rw [hpe]
    simp [walkAux]
  | succ n ih =>
    intro pending hnd hlen
    by_cases hnil : pending = []
    · rw [hnil]
      simp [walkAux, maxTimeElem]
    · have hfne := ready_filter_ne_nil hw hnil
      obtain ⟨c, hc⟩ := Option.isSome_iff_exists.mp (maxTimeElem_isSome cs hfne)
      have hcmem : c ∈ pending := (List.mem_filter.mp (maxTimeElem_mem cs hc)).1
      unfold walkAux
      rw [hc]
      have hlen' : (pending.erase c).length ≤ n := by
        rw [List.length_erase_of_mem hcmem]
        omega
      have hperm := ih (pending.erase c) (hnd.erase c) hlen'
      exact (hperm.cons c).trans (List.perm_cons_erase hcmem).symm

theorem walkAux_topo {cs : List (Nat × CommitObj)} (hw : ParentsLt cs) :
    ∀ (fuel : Nat) (pending : List Nat), pending.Nodup → pending.length ≤ fuel →
      ∀ l1 a l2, walkAux cs fuel pending = l1 ++ a :: l2 →
        ∀ b ∈ l2, ¬(a ≠ b ∧ a ∈ ancestors cs b) := by
  intro fuel
  induction fuel with
  | zero =>
    intro pending _ hlen l1 a l2 heq
    have hpe : pending = [] := List.length_eq_zero.mp (by omega)
    rw [hpe] at heq
    simp only [walkAux] at heq
    cases l1 <;> simp at heq
  | succ n ih =>
    intro pending hnd hlen l1 a l2 heq
    by_cases hnil : pending = []
    · rw [hnil] at heq
      simp only [walkAux, maxTimeElem, List.filter_nil] at heq
      cases l1 <;> simp at heq
    · have hfne := ready_filter_ne_nil hw hnil
      obtain ⟨c, hc⟩ := Option.isSome_iff_exists.mp (maxTimeElem_isSome cs hfne)
      have hcfil := maxTimeElem_mem cs hc
      have hcmem : c ∈ pending := (List.mem_filter.mp hcfil).1
      have hcready : readyIn cs pending c = true := (List.mem_filter.mp hcfil).2
      unfold walkAux at heq
      rw [hc] at heq
      have hlen' : (pending.erase c).length ≤ n := by
        rw [List.length_erase_of_mem hcmem]
        omega
      cases l1 with
      | nil =>
        simp at heq
        obtain ⟨hac, hrest⟩ := heq
        intro b hb
        have hperm := walkAux_perm hw n (pending.erase c) (hnd.erase c) hlen'
        rw [hrest] at hperm
        have hbmem : b ∈ pending.erase c := hperm.mem_iff.mp hb
        have hbp : b ≠ c ∧ b ∈ pending := (hnd.mem_erase_iff).mp hbmem
        rcases readyIn_iff.mp hcready b hbp.2 with h1 | h1
        · intro hcon
          exact hcon.1 (h1.trans hac).symm
        · intro hcon
          rw [hac] at h1
          exact h1 hcon.2
      | cons x l1' =>
        simp at heq
        exact ih (pending.erase c) (hnd.erase c) hlen' l1' a l2 heq.2

theorem walkAux_greedy {cs : List (Nat × CommitObj)} (hw : ParentsLt cs) :
    ∀ (fuel : Nat) (pending : List Nat), pending.Nodup → pending.length ≤ fuel →
      ∀ l1 a l2, walkAux cs fuel pending = l1 ++ a :: l2 →
        ∀ d ∈ a :: l2, readyIn cs (a :: l2) d = true → timeOf cs d ≤ timeOf cs a := by
  intro fuel
  induction fuel with
  | zero =>
    intro pending _ hlen l1 a l2 heq
    have hpe : pending = [] := List.length_eq_zero.mp (by omega)
    rw [hpe] at heq
    simp only [walkAux] at heq
    cases l1 <;> simp at heq
  | succ n ih =>
    intro pending hnd hlen l1 a l2 heq
    by_cases hnil : pending = []
    · rw [hnil] at heq
      simp only [walkAux, maxTimeElem, List.filter_nil] at heq
      cases l1 <;> simp at heq
    · have hfne := ready_filter_ne_nil hw hnil
      obtain ⟨c, hc⟩ := Option.isSome_iff_exists.mp (maxTimeElem_isSome cs hfne)
      have hcfil := maxTimeElem_mem cs hc
      have hcmem : c ∈ pending := (List.mem_filter.mp hcfil).1
      unfold walkAux at heq
      rw [hc] at heq
      have hlen' : (pending.erase c).length ≤ n := by
        rw [List.length_erase_of_mem hcmem]
        omega
      cases l1 with
      | nil =>
        simp at heq
        obtain ⟨hac, hrest⟩ := heq
        intro d hd hready
        have hperm := walkAux_perm hw n (pending.erase c) (hnd.erase c) hlen'
        rw [hrest] at hperm
        have hperm2 : (c :: l2).Perm pending :=
          (hperm.cons c).trans (List.perm_cons_erase hcmem).symm
        rw [hac] at hperm2
        have hdmem : d ∈ pending := hperm2.mem_iff.mp hd
        have hready' : readyIn cs pending d = true := by
          rw [← readyIn_perm hperm2]
          exact hready
        have hdfil : d ∈ pending.filter (fun x => readyIn cs pending x) :=
          List.mem_filter.mpr ⟨hdmem, hready'⟩
        have hle := maxTimeElem_time_ge cs hc d hdfil
        rw [hac] at hle
        exact hle
      | cons x l1' =>
        simp at heq
        exact ih (pending.erase c) (hnd.erase c) hlen' l1' a l2 heq.2

theorem assocFind_isSome_of_mem_ancestors {cs : List (Nat × CommitObj)}
    (hex : ∀ e ∈ cs, ∀ p ∈ e.2.parents, (assocFind cs p).isSome) :
    ∀ (fuel a b : Nat), b ∈ ancestorsAux cs fuel a → (assocFind cs a).isSome →
      (assocFind cs b).isSome := by
  intro fuel
  induction fuel with
  | zero => intro a b hb; simp [ancestorsAux] at hb
  | succ n ih =>
    intro a b hb ha
    simp only [ancestorsAux, List.mem_cons, List.mem_flatMap] at hb
    rcases hb with hb | ⟨p, hp, hbp⟩
    · rw [hb]; exact ha
    · obtain ⟨c, hc⟩ := Option.isSome_iff_exists.mp ha
      unfold childParents at hp
      rw [hc] at hp
      have hpsome : (assocFind cs p).isSome := hex (a, c) (assocFind_mem hc) p hp
      exact ih p b hbp hpsome

theorem commitInfosOf_ok {cs : List (Nat × CommitObj)} :
    ∀ (l : List Nat), (∀ o ∈ l, (assocFind cs o).isSome) →
      ∃ infos, commitInfosOf cs l = .ok infos ∧
        infos.map CommitInfo.hash = l.map toString := by
  intro l
  induction l with
  | nil => exact fun _ => ⟨[], rfl, rfl⟩
  | cons o t ih =>
    intro hall
    obtain ⟨c, hc⟩ := Option.isSome_iff_exists.mp (hall o (List.mem_cons_self o t))
    obtain ⟨infos, hinf, hmap⟩ := ih (fun x hx => hall x (List.mem_cons_of_mem _ hx))
    refine ⟨⟨toString o, c.message⟩ :: infos, ?_, ?_⟩
    · unfold commitInfosOf
      rw [hc, hinf]
    · simp [hmap]

/-- C8: list_commits returns the empty sequence on an unborn HEAD, and
otherwise a finite duplicate-free sequence of exactly the commits
reachable from HEAD, in which a commit never precedes one of its strict
descendants (topological order) and each emitted commit has maximal
commit time among the commits that could legally be emitted at that
point (ties broken by time, newest first). -/
theorem list_commits_spec (s : GitRepo)
    (hw : ParentsLt s.commits)
    (hex : ∀ e ∈ s.commits, ∀ p ∈ e.2.parents, (assocFind s.commits p).isSome) :
    (∀ e, s.resolveHead = .error e → s.listCommits = .ok []) ∧
    (∀ h, s.resolveHead = .ok h → (assocFind s.commits h).isSome →
      ∃ infos, s.listCommits = .ok infos ∧
        infos.map CommitInfo.hash = (revwalk s.commits h).map toString ∧
        (∀ o, o ∈ revwalk s.commits h ↔ Reach s.commits h o) ∧
        (revwalk s.commits h).Nodup ∧
        (∀ l1 a l2, revwalk s.commits h = l1 ++ a :: l2 →
          ∀ b ∈ l2, ¬(a ≠ b ∧ a ∈ ancestors s.commits b)) ∧
        (∀ l1 a l2, revwalk s.commits h = l1 ++ a :: l2 →
          ∀ d ∈ a :: l2, readyIn s.commits (a :: l2) d = true →
            timeOf s.commits d ≤ timeOf s.commits a)) := by
  constructor
  · intro e he
    unfold GitRepo.listCommits
    simp only [he]
  · intro h hh hsome
    have hperm : (revwalk s.commits h).Perm ((ancestors s.commits h).dedup) := by
      unfold revwalk
      exact walkAux_perm hw _ _ (List.nodup_dedup _) le_rfl
    have hmem : ∀ o, o ∈ revwalk s.commits h ↔ Reach s.commits h o := by
      intro o
      rw [hperm.mem_iff, List.mem_dedup]
      exact mem_ancestors_iff_reach hw
    have hall : ∀ o ∈ revwalk s.commits h, (assocFind s.commits o).isSome := by
      intro o ho
      have hanc : o ∈ ancestors s.commits h := by
        rw [hperm.mem_iff, List.mem_dedup] at ho
        exact ho
      exact assocFind_isSome_of_mem_ancestors hex _ h o hanc hsome
    obtain ⟨infos, hinf, hmap⟩ := commitInfosOf_ok _ hall
    refine ⟨infos, ?_, hmap, hmem, ?_, ?_, ?_⟩
    · unfold GitRepo.listCommits
      simp only [hh]
      exact hinf
    · exact hperm.nodup_iff.mpr (List.nodup_dedup _)
    · intro l1 a l2 heq
      exact walkAux_topo hw _ _ (List.nodup_dedup _) le_rfl l1 a l2 heq
    · intro l1 a l2 heq
      exact walkAux_greedy hw _ _ (List.nodup_dedup _) le_rfl l1 a l2 heq

/-- Witness for C8: the unborn case on a fresh repository, and the
populated case on a four-commit history with a merge commit. -/
theorem list_commits_spec_witness :
    (GitRepo.init true).listCommits = .ok [] ∧
    (∃ infos, exAhead.listCommits = .ok infos ∧
      infos.map CommitInfo.hash = (revwalk exAhead.commits 4).map toString ∧
      (∀ o, o ∈ revwalk exAhead.commits 4 ↔ Reach exAhead.commits 4 o) ∧
      (revwalk exAhead.commits 4).Nodup ∧
      (∀ l1 a l2, revwalk exAhead.commits 4 = l1 ++ a :: l2 →
        ∀ b ∈ l2, ¬(a ≠ b ∧ a ∈ ancestors exAhead.commits b)) ∧
      (∀ l1 a l2, revwalk exAhead.commits 4 = l1 ++ a :: l2 →
        ∀ d ∈ a :: l2, readyIn exAhead.commits (a :: l2) d = true →
          timeOf exAhead.commits d ≤ timeOf exAhead.commits a)) := by
  constructor
  · exact (list_commits_spec (GitRepo.init true) (by decide) (by decide)).1
      "Failed to get HEAD" rfl
  · exact (list_commits_spec exAhead (by decide) (by decide)).2 4 rfl (by decide)

/-- Counterexample to C1 as stated: a repository satisfying every graph
precondition of the fast-forward case (HEAD on master at 1, feature at
3, merge base 1) but with no committer identity configured; merge fails
resolving the signature before the fast-forward, moving no reference. -/
theorem merge_fast_forward_no_identity_counterexample :
    assocFind exFFNoSig.refs (.head "feature") = some 3 ∧
    assocFind exFFNoSig.refs (.head "master") = some 1 ∧
    exFFNoSig.headRef = .symbolic (.head "master") ∧
    (1 : Nat) ≠ 3 ∧
    mergeBase exFFNoSig.commits 1 3 = some 1 ∧
    exFFNoSig.bare = false ∧
    (exFFNoSig.merge "feature" none).1 = .error "Failed to create signature" ∧
    (exFFNoSig.merge "feature" none).2 = exFFNoSig ∧
    (exFFNoSig.merge "feature" none).1 ≠ .ok ("Fast-forward merge: " ++ toString 3) := by
  have h1 : (exFFNoSig.merge "feature" none).1 = .error "Failed to create signature" := rfl
  refine ⟨rfl, rfl, rfl, by decide, rfl, rfl, h1, rfl, ?_⟩
  rw [h1]
  intro hh
  exact Except.noConfusion hh

/-- Counterexample to C2 as stated: a repository in the HEAD-equals-
target no-op configuration but with no committer identity configured;
merge fails resolving the signature instead of reporting up to date. -/
theorem merge_up_to_date_no_identity_counterexample :
    assocFind exSameNoSig.refs (.head "master") = some 2 ∧
    assocFind exSameNoSig.refs (.head "feature") = some 2 ∧
    exSameNoSig.headRef = .symbolic (.head "master") ∧
    (exSameNoSig.merge "feature" none).1 = .error "Failed to create signature" ∧
    (exSameNoSig.merge "feature" none).1 ≠ .ok "Already up-to-date" := by
  have h1 : (exSameNoSig.merge "feature" none).1 = .error "Failed to create signature" := rfl
  refine ⟨rfl, rfl, rfl, h1, ?_⟩
  rw [h1]
  intro hh
  exact Except.noConfusion hh
